import Mathlib

/-!
Verification development for `bayesfast/core/density.py`.

Numpy float arrays are modelled exactly over `ℚ`: a 1-d array is a `List ℚ`
and a 2-d array is a `List (List ℚ)` (list of rows).  Fallible numpy
operations (`np.dot` with mismatched inner dimensions, `np.concatenate` of an
empty list or of blocks with inconsistent widths) are modelled as
`Option`-valued checked variants.  Python exceptions are modelled with
`Except`; an exception raised while a `VariableDict` is being mutated in
place is modelled by an error value that carries the partially mutated
dictionary (the caller's dictionary object in Python keeps those mutations).
-/

namespace BayesFast

abbrev Vec := List ℚ
abbrev Mat := List Vec

/-- Inner product of two vectors, `np.dot` for 1-d inputs of equal length. -/
def dot (u v : Vec) : ℚ := (List.zipWith (· * ·) u v).sum

/-- Column `j` of a matrix (entries default to `0` past a row's end; the
checked product below only uses it within bounds). -/
def colJ (B : Mat) (j : Nat) : Vec := B.map (fun row => row.getD j 0)

/-- Number of columns of a matrix, read off its first row as numpy does for a
well-formed 2-d array. -/
def matWidth (B : Mat) : Nat := (B.head?.getD []).length

/-- `np.dot` for 2-d inputs: entry `(i, j)` is the inner product of row `i`
of `A` with column `j` of `B`. -/
def matMul (A B : Mat) : Mat :=
  A.map (fun r => (List.range (matWidth B)).map (fun j => dot r (colJ B j)))

/-- `np.dot` raises on an inner-dimension mismatch; the checked product
returns `none` exactly then. -/
def matMulChk (A B : Mat) : Option Mat :=
  if A.all (fun r => r.length == B.length) then some (matMul A B) else none

/-- `np.eye n`. -/
def eye (n : Nat) : Mat :=
  (List.range n).map (fun i => (List.range n).map (fun j => if i = j then (1 : ℚ) else 0))

/-- All rows of all blocks share one width (numpy's conformity requirement
for `np.concatenate(..., axis=0)`). -/
def uniformWidth (rows : Mat) : Bool :=
  match rows with
  | [] => true
  | r :: rs => rs.all (fun x => x.length == r.length)

/-- `np.concatenate(blocks, axis=0)`: raises on an empty block list or on
blocks of inconsistent width, otherwise stacks all rows. -/
def concatChk (ms : List Mat) : Option Mat :=
  if ms.isEmpty then none
  else if uniformWidth ms.flatten then some ms.flatten else none

/-! ### Basic algebra lemmas -/

theorem dot_nil_right (u : Vec) : dot u [] = 0 := by
  cases u <;> simp [dot]

theorem dot_zero_right (t l : Vec) (hl : ∀ x ∈ l, x = 0) : dot t l = 0 := by
  induction t generalizing l with
  | nil => simp [dot]
  | cons a t ih =>
    cases l with
    | nil => simp [dot]
    | cons b l' =>
      have hb : b = 0 := hl b (List.mem_cons_self _ _)
      have ht : dot t l' = 0 := ih l' (fun x hx => hl x (List.mem_cons_of_mem _ hx))
      simp only [dot, List.zipWith_cons_cons, List.sum_cons] at ht ⊢
      rw [hb, mul_zero, ht, add_zero]

theorem dot_basis (r : Vec) (j : Nat) (hj : j < r.length) :
    dot r ((List.range r.length).map (fun i => if i = j then (1 : ℚ) else 0)) = r.getD j 0 := by
  induction r generalizing j with
  | nil => simp at hj
  | cons a t ih =>
    rw [List.length_cons, List.range_succ_eq_map, List.map_cons, List.map_map]
    cases j with
    | zero =>
      have h0 : dot t (List.map ((fun i => if i = 0 then (1 : ℚ) else 0) ∘ Nat.succ)
          (List.range t.length)) = 0 := by
        apply dot_zero_right
        intro x hx
        simp only [List.mem_map] at hx
        obtain ⟨i, _, rfl⟩ := hx
        simp [Function.comp]
      simp only [dot, List.zipWith_cons_cons, List.sum_cons, List.getD_cons_zero] at h0 ⊢
      rw [h0, add_zero]
      simp
    | succ j' =>
      have hne : (0 : Nat) ≠ j' + 1 := by omega
      have hc : List.map ((fun i => if i = j' + 1 then (1 : ℚ) else 0) ∘ Nat.succ)
          (List.range t.length)
          = List.map (fun i => if i = j' then (1 : ℚ) else 0) (List.range t.length) := by
        apply List.map_congr_left
        intro x _
        simp [Function.comp, Nat.succ_inj]
      have ht := ih j' (by simpa using Nat.lt_of_succ_lt_succ hj)
      simp only [dot, List.zipWith_cons_cons, List.sum_cons, List.getD_cons_succ] at ht ⊢
      rw [if_neg hne, mul_zero, zero_add, hc, ht]

theorem map_getD_range (l : Vec) :
    (List.range l.length).map (fun j => l.getD j 0) = l := by
  induction l with
  | nil => simp
  | cons a t ih =>
    rw [List.length_cons, List.range_succ_eq_map, List.map_cons, List.map_map]
    have htail : List.map ((fun j => (a :: t).getD j 0) ∘ Nat.succ) (List.range t.length) = t := by
      have hc : List.map ((fun j => (a :: t).getD j 0) ∘ Nat.succ) (List.range t.length)
          = List.map (fun j => t.getD j 0) (List.range t.length) := by
        apply List.map_congr_left
        intro x _
        simp [Function.comp]
      rw [hc, ih]
    rw [htail]
    simp

theorem eye_length (n : Nat) : (eye n).length = n := by simp [eye]

theorem eye_row (n i : Nat) (hi : i < n) :
    (eye n)[i]? = some ((List.range n).map (fun j => if i = j then (1 : ℚ) else 0)) := by
  simp [eye, List.getElem?_map, List.getElem?_range, hi]

theorem colJ_eye (n j : Nat) (hj : j < n) :
    colJ (eye n) j = (List.range n).map (fun i => if i = j then (1 : ℚ) else 0) := by
  simp only [colJ, eye, List.map_map]
  apply List.map_congr_left
  intro i _
  simp only [Function.comp]
  rw [List.getD_eq_getElem?_getD]
  simp [List.getElem?_map, List.getElem?_range, hj]

theorem matWidth_eye (n : Nat) : matWidth (eye n) = n := by
  cases n with
  | zero => simp [matWidth, eye]
  | succ m =>
    simp [matWidth, eye, List.range_succ_eq_map]

theorem matMul_eye (A : Mat) (n : Nat) (h : ∀ r ∈ A, r.length = n) :
    matMul A (eye n) = A := by
  unfold matMul
  rw [matWidth_eye]
  conv_rhs => rw [← List.map_id A]
  apply List.map_congr_left
  intro r hr
  have hlen : r.length = n := h r hr
  subst hlen
  have : (List.range r.length).map (fun j => dot r (colJ (eye r.length) j))
      = (List.range r.length).map (fun j => r.getD j 0) := by
    apply List.map_congr_left
    intro j hj
    rw [List.mem_range] at hj
    rw [colJ_eye _ _ hj]
    have := dot_basis r j hj
    simpa using this
  rw [this, map_getD_range]
  rfl

theorem matMulChk_eye (A : Mat) (n : Nat) (h : ∀ r ∈ A, r.length = n) :
    matMulChk A (eye n) = some A := by
  unfold matMulChk
  rw [if_pos, matMul_eye A n h]
  rw [List.all_eq_true]
  intro r hr
  simpa [eye_length] using h r hr

theorem uniformWidth_of_len (M : Mat) (n : Nat) (h : ∀ r ∈ M, r.length = n) :
    uniformWidth M = true := by
  cases M with
  | nil => rfl
  | cons r rs =>
    simp only [uniformWidth, List.all_eq_true]
    intro x hx
    have h1 := h x (List.mem_cons_of_mem _ hx)
    have h2 := h r (List.mem_cons_self _ _)
    simp [h1, h2]

theorem concatChk_singleton (M : Mat) (n : Nat) (h : ∀ r ∈ M, r.length = n) :
    concatChk [M] = some M := by
  have hflat : ([M] : List Mat).flatten = M := by simp
  unfold concatChk
  rw [if_neg (by simp), hflat, if_pos (uniformWidth_of_len M n h)]

/-! ### Ordered string-keyed maps, modelling Python `dict` -/

/-- Lookup in an insertion-ordered association list (Python `d[k]` returning
the value, `none` modelling `KeyError`). -/
def alookup {α : Type} : List (String × α) → String → Option α
  | [], _ => none
  | (k, v) :: t, n => if k = n then some v else alookup t n

/-- Python `d[k] = v`: overwrite in place if the key exists (keeping its
position), otherwise append at the end. -/
def aset {α : Type} : List (String × α) → String → α → List (String × α)
  | [], n, v => [(n, v)]
  | (k, w) :: t, n, v => if k = n then (k, v) :: t else (k, w) :: aset t n v

/-- Python `del d[k]`: `none` models the `KeyError` on a missing key. -/
def aerase {α : Type} : List (String × α) → String → Option (List (String × α))
  | [], _ => none
  | (k, w) :: t, n => if k = n then some t else (aerase t n).map ((k, w) :: ·)

/-- Python `k in d`. -/
def amem {α : Type} (l : List (String × α)) (n : String) : Bool := (alookup l n).isSome

theorem alookup_aset_self {α : Type} (l : List (String × α)) (n : String) (v : α) :
    alookup (aset l n v) n = some v := by
  induction l with
  | nil => simp [aset, alookup]
  | cons p t ih =>
    obtain ⟨k, w⟩ := p
    by_cases h : k = n
    · simp [aset, alookup, h]
    · simp [aset, alookup, h, ih]

theorem alookup_aset_ne {α : Type} (l : List (String × α)) (n m : String) (v : α)
    (h : m ≠ n) : alookup (aset l n v) m = alookup l m := by
  induction l with
  | nil => simp [aset, alookup, Ne.symm h]
  | cons p t ih =>
    obtain ⟨k, w⟩ := p
    by_cases hk : k = n
    · subst hk
      simp only [aset, if_pos rfl, alookup]
      rw [if_neg (Ne.symm h), if_neg (Ne.symm h)]
    · simp only [aset, if_neg hk, alookup]
      by_cases hm : k = m
      · rw [if_pos hm, if_pos hm]
      · rw [if_neg hm, if_neg hm, ih]

theorem aerase_of_keysNodup {α : Type} (l : List (String × α)) (n : String) (l' : List (String × α))
    (hnd : (l.map Prod.fst).Nodup) (he : aerase l n = some l') :
    alookup l' n = none ∧ (∀ m, m ≠ n → alookup l' m = alookup l m)
      ∧ (l'.map Prod.fst).Nodup := by
  induction l generalizing l' with
  | nil => simp [aerase] at he
  | cons p t ih =>
    obtain ⟨k, w⟩ := p
    simp only [List.map_cons, List.nodup_cons] at hnd
    by_cases hk : k = n
    · subst hk
      have he' : t = l' := by simpa [aerase] using he
      subst he'
      refine ⟨?_, ?_, hnd.2⟩
      · -- k does not occur among the tail keys
        have hnk : ∀ q ∈ t, q.1 ≠ k := by
          intro q hq hq1
          exact hnd.1 (hq1 ▸ List.mem_map_of_mem Prod.fst hq)
        clear ih hnd he
        induction t with
        | nil => rfl
        | cons q t' ih' =>
          have h1 := hnk q (List.mem_cons_self _ _)
          simp only [alookup, if_neg h1]
          exact ih' (fun r hr => hnk r (List.mem_cons_of_mem _ hr))
      · intro m hm
        simp only [alookup]
        rw [if_neg (Ne.symm hm)]
    · simp only [aerase, if_neg hk] at he
      match ht : aerase t n with
      | none => rw [ht] at he; simp at he
      | some t' =>
        rw [ht] at he
        simp only [Option.map, Option.some.injEq] at he
        subst he
        obtain ⟨h1, h2, h3⟩ := ih t' hnd.2 ht
        refine ⟨?_, ?_, ?_⟩
        · simp only [alookup]
          rw [if_neg hk, h1]
        · intro m hm
          simp only [alookup]
          by_cases hkm : k = m
          · rw [if_pos hkm, if_pos hkm]
          · rw [if_neg hkm, if_neg hkm, h2 m hm]
        · simp only [List.map_cons, List.nodup_cons]
          refine ⟨?_, h3⟩
          intro hmem
          have : k ∈ t.map Prod.fst := by
            -- keys of t' are keys of t
            have hsub : ∀ m, m ∈ t'.map Prod.fst → m ∈ t.map Prod.fst := by
              clear h1 h2 h3 hnd ih hmem
              induction t generalizing t' with
              | nil => simp [aerase] at ht
              | cons q tt ihh =>
                obtain ⟨kq, wq⟩ := q
                by_cases hq : kq = n
                · simp only [aerase, if_pos hq, Option.some.injEq] at ht
                  subst ht
                  intro m hm
                  exact List.mem_cons_of_mem _ hm
                · simp only [aerase, if_neg hq] at ht
                  match ht2 : aerase tt n with
                  | none => rw [ht2] at ht; simp at ht
                  | some tt' =>
                    rw [ht2] at ht
                    simp only [Option.map, Option.some.injEq] at ht
                    subst ht
                    intro m hm
                    simp only [List.map_cons, List.mem_cons] at hm ⊢
                    rcases hm with hm | hm
                    · exact Or.inl hm
                    · exact Or.inr (ihh tt' ht2 m hm)
            exact hsub k hmem
          exact hnd.1 this

/-! ### Module / Surrogate contract

Modelled from the spec: the `Module` and `Surrogate` classes live in
`bayesfast/core/module.py`, which is not part of the sources; the spec
describes their contract as `input_vars`/`output_vars` (ordered name lists),
optional `copy_vars`/`paste_vars`/`delete_vars`, `fun(*blocks) -> list[block]`,
`fun_and_jac(*blocks) -> (list[block], list[local_jacobian])`, and for a
`Surrogate` additionally `scope : (start, extent)`.  A stage's own failure
(any exception raised by its function) is modelled by `none`. -/

structure Module where
  input_vars : List String
  output_vars : List String
  copy_vars : List String
  paste_vars : List String
  delete_vars : List String
  mfun : List Vec → Option (List Vec)
  fun_and_jac : List Vec → Option (List Vec × List Mat)

/-- Modelled from the spec: a `Surrogate` is a `Module` owning a scope
`(start_module_index, extent)` and optionally its own input rescaling
(`su._var_scales`, consumed by `Density.fit`). -/
structure Surrogate extends Module where
  scope : Int × Int
  var_scales : Option (List (ℚ × ℚ))

/-- The two parallel mappings of a `VariableDict`
(`bayesfast/utils/collections.py`, not part of the sources).
Modelled from the spec: `values : name → array` and
`jacobians : name → array`, insertion-ordered; `vd[name] = (f, j)` writes
both mappings, `vd[name]` reads the pair. -/
structure VariableDict where
  fvals : List (String × Vec)
  jvals : List (String × Mat)
deriving DecidableEq

/-! ### The stepwise evaluator of `Pipeline.fun` / `Pipeline.fun_and_jac`

Each phase of a step mutates the dictionary in place in Python; a failure
mid-phase leaves the mutations made so far.  The model returns
`Except VariableDict VariableDict`: the error value is the partially mutated
dictionary at the moment the exception was raised. -/

/-- `'{}-Copy{}'.format(n, k)` (`density.py` lines 370, 502). -/
def copyName (n : String) (k : Nat) : String := n ++ "-Copy" ++ toString k

/-- The `while True:` search for the first unused name `<n>-Copy<k>`
(`Pipeline.fun` lines 368-374, `Pipeline.fun_and_jac` lines 500-506).  The
source loop is unbounded but always terminates because only finitely many
names are bound; the model carries explicit fuel chosen strictly larger than
the number of bound names, so in every reachable state the loop exits before
the fuel does. -/
def findCopyName (used : String → Bool) (n : String) : Nat → Nat → String
  | 0, k => copyName n k
  | fuel + 1, k =>
    if used (copyName n k) then findCopyName used n fuel (k + 1) else copyName n k

/-- Fuel bound for `findCopyName`: more candidates than bound names. -/
def dictFuel (d : VariableDict) : Nat := d.fvals.length + d.jvals.length + 2

/-- `_input = [var_dict._fun[n] for n in _module._input_vars]`
(lines 360, 489); a missing name raises `KeyError`. -/
def getInputs (m : Module) (d : VariableDict) : Option (List Vec) :=
  m.input_vars.mapM (fun n => alookup d.fvals n)

/-- `np.concatenate([var_dict._jac[n] for n in _module._input_vars], axis=0)`
(lines 490-491). -/
def getInputJacs (m : Module) (d : VariableDict) : Option Mat :=
  (m.input_vars.mapM (fun n => alookup d.jvals n)).bind concatChk

/-- Output binding of `Pipeline.fun` (lines 362-363): `_output[j]` past the
end raises `IndexError`. -/
def bindOutputsFun : List String → Nat → List Vec → VariableDict →
    Except VariableDict VariableDict
  | [], _, _, d => .ok d
  | n :: rest, j, outs, d =>
    match outs[j]? with
    | none => .error d
    | some o => bindOutputsFun rest (j + 1) outs { d with fvals := aset d.fvals n o }

/-- Output binding of `Pipeline.fun_and_jac` (lines 493-495): bind the value,
then bind `np.dot(_output_jac[j], _input_jac)` as the output's Jacobian. -/
def bindOutputsFAJ (inJac : Mat) : List String → Nat → List Vec → List Mat → VariableDict →
    Except VariableDict VariableDict
  | [], _, _, _, d => .ok d
  | n :: rest, j, outs, outjacs, d =>
    match outs[j]? with
    | none => .error d
    | some o =>
      let d1 : VariableDict := { d with fvals := aset d.fvals n o }
      match outjacs[j]? with
      | none => .error d1
      | some oj =>
        match matMulChk oj inJac with
        | none => .error d1
        | some jj =>
          bindOutputsFAJ inJac rest (j + 1) outs outjacs { d1 with jvals := aset d1.jvals n jj }

/-- Copy directives of `Pipeline.fun` (lines 364-375): the paste name is
`_module._paste_vars[j]` when that index exists, else the first unused
`<n>-Copy<k>`; value mode reads and writes the value mapping only. -/
def copyPhaseFun (m : Module) : List String → Nat → VariableDict →
    Except VariableDict VariableDict
  | [], _, d => .ok d
  | n :: rest, j, d =>
    let nn := match m.paste_vars[j]? with
      | some p => p
      | none => findCopyName (fun s => amem d.fvals s) n (dictFuel d) 1
    match alookup d.fvals n with
    | none => .error d
    | some v => copyPhaseFun m rest (j + 1) { d with fvals := aset d.fvals nn v }

/-- Copy directives of `Pipeline.fun_and_jac` (lines 496-508): the collision
check consults both mappings, and `var_dict[nn] = (copy of value, copy of
jacobian)` writes both mappings. -/
def copyPhaseFAJ (m : Module) : List String → Nat → VariableDict →
    Except VariableDict VariableDict
  | [], _, d => .ok d
  | n :: rest, j, d =>
    let nn := match m.paste_vars[j]? with
      | some p => p
      | none => findCopyName (fun s => amem d.fvals s || amem d.jvals s) n (dictFuel d) 1
    match alookup d.fvals n with
    | none => .error d
    | some v =>
      match alookup d.jvals n with
      | none => .error d
      | some jm => copyPhaseFAJ m rest (j + 1) ⟨aset d.fvals nn v, aset d.jvals nn jm⟩

/-- Delete directives of `Pipeline.fun` (lines 376-377): value mode removes
names from the value mapping only. -/
def deletePhaseFun : List String → VariableDict → Except VariableDict VariableDict
  | [], d => .ok d
  | n :: rest, d =>
    match aerase d.fvals n with
    | none => .error d
    | some f' => deletePhaseFun rest { d with fvals := f' }

/-- Delete directives of `Pipeline.fun_and_jac` (lines 509-510):
`del var_dict._fun[n], var_dict._jac[n]` removes from the value mapping
first, so a key present there but missing from the Jacobian mapping leaves
the value deletion behind when the `KeyError` fires. -/
def deletePhaseFAJ : List String → VariableDict → Except VariableDict VariableDict
  | [], d => .ok d
  | n :: rest, d =>
    match aerase d.fvals n with
    | none => .error d
    | some f' =>
      match aerase d.jvals n with
      | none => .error { d with fvals := f' }
      | some j' => deletePhaseFAJ rest ⟨f', j'⟩

/-- One full step of `Pipeline.fun` (the body of the try block,
lines 360-377). -/
def stepFun (m : Module) (d : VariableDict) : Except VariableDict VariableDict :=
  match getInputs m d with
  | none => .error d
  | some ins =>
    match m.mfun ins with
    | none => .error d
    | some outs => do
      let d1 ← bindOutputsFun m.output_vars 0 outs d
      let d2 ← copyPhaseFun m m.copy_vars 0 d1
      deletePhaseFun m.delete_vars d2

/-- One full step of `Pipeline.fun_and_jac` (the body of the try block,
lines 489-510). -/
def stepFAJ (m : Module) (d : VariableDict) : Except VariableDict VariableDict :=
  match getInputs m d with
  | none => .error d
  | some ins =>
    match getInputJacs m d with
    | none => .error d
    | some inJac =>
      match m.fun_and_jac ins with
      | none => .error d
      | some (outs, outjacs) => do
        let d1 ← bindOutputsFAJ inJac m.output_vars 0 outs outjacs d
        let d2 ← copyPhaseFAJ m m.copy_vars 0 d1
        deletePhaseFAJ m.delete_vars d2

/-- Evaluation-time failures of a pipeline call. -/
inductive PErr
  /-- The wrapped `RuntimeError('pipeline ... evaluation failed at step #i')`
  (lines 378-380, 511-514); carries the in-place mutated dictionary. -/
  | atStep (i : Int) (d : VariableDict)
  /-- Exceptions raised outside the per-step try block. -/
  | raw (msg : String)
deriving DecidableEq

/-- Python list indexing: nonnegative in range, or a negative index counting
from the end. -/
def pyGet {α : Type} (l : List α) (i : Int) : Option α :=
  if 0 ≤ i then l[i.toNat]?
  else if 0 ≤ (l.length : Int) + i then l[((l.length : Int) + i).toNat]?
  else none

/-- `np.searchsorted(a, v)` for an ascending `a` (default left side): the
first index whose entry is `≥ v`. -/
def searchsorted (a : List Int) (v : Int) : Nat :=
  match a.findIdx? (fun s => decide (v ≤ s)) with
  | some i => i
  | none => a.length

/-- Stage selection of one loop iteration (`fun` lines 343-359, `fun_and_jac`
lines 472-488): returns the selected stage, the cursor advance `di`, and the
updated `(si, use_surrogate)` bookkeeping.  `none` models the exceptions
raised inside the try block by the selection itself (an index error on the
recipe, the module list or the surrogate list, and the
`RuntimeError('unexpected value for i and si.')`). -/
def selectStage (ml : List Module) (sl : List Surrogate) (recipe : List (Nat × Int × Int))
    (i : Int) (si : Nat) (us : Bool) : Option (Module × Int × Nat × Bool) :=
  if us && !sl.isEmpty then
    match recipe[si]? with
    | none => none
    | some r =>
      if i < r.2.1 then (pyGet ml i).map (fun m => (m, 1, si, us))
      else if i = r.2.1 then
        match sl[r.1]? with
        | none => none
        | some s =>
          if si = sl.length - 1 then some (s.toModule, r.2.2, si, false)
          else some (s.toModule, r.2.2, si + 1, us)
      else none
  else (pyGet ml i).map (fun m => (m, 1, si, us))

/-- The `while i <= stop:` loop shared by `Pipeline.fun` (lines 340-381) and
`Pipeline.fun_and_jac` (lines 469-515), parameterized by the per-step body.
A failing step wraps into `PErr.atStep i` with the partially mutated
dictionary.  In the source the loop needs no fuel (every reachable advance is
positive); here the fuel is initialized to more iterations than the cursor
range can hold, so exhaustion is unreachable when every advance is `≥ 1`. -/
def runLoop (step : Module → VariableDict → Except VariableDict VariableDict)
    (ml : List Module) (sl : List Surrogate) (recipe : List (Nat × Int × Int))
    (stop : Int) : Nat → Int → Nat → Bool → VariableDict → Except PErr VariableDict
  | 0, i, _, _, d => if i ≤ stop then .error (.raw "loop fuel exhausted") else .ok d
  | fuel + 1, i, si, us, d =>
    if i ≤ stop then
      match selectStage ml sl recipe i si us with
      | none => .error (.atStep i d)
      | some (m, di, si', us') =>
        match step m d with
        | .error derr => .error (.atStep i derr)
        | .ok d' => runLoop step ml sl recipe stop fuel (i + di) si' us' d'
    else .ok d

/-- Surrogate-cursor initialization before the loop (`fun` lines 336-339,
`fun_and_jac` lines 465-468), then the loop itself. -/
def runStages (step : Module → VariableDict → Except VariableDict VariableDict)
    (ml : List Module) (sl : List Surrogate) (recipe : List (Nat × Int × Int))
    (start stop : Int) (us : Bool) (d : VariableDict) : Except PErr VariableDict :=
  let siUs : Nat × Bool :=
    if us && !sl.isEmpty then
      let si := searchsorted (recipe.map (fun r => r.2.1)) start
      if si = sl.length then (si, false) else (si, us)
    else (0, us)
  runLoop step ml sl recipe stop ((stop + 1 - start).toNat + 1) start siUs.1 siUs.2 d

/-! ### The surrogate recipe builder (`Pipeline._build_surrogate_recipe`) -/

/-- Sort key of the recipe rows: `start mod module_count`
(`np.argsort(self._surrogate_recipe[:, 1] % self.n_module)`, lines 247-248). -/
def surrogateKey (n : Nat) (r : Nat × Int × Int) : Int := r.2.1.emod n

/-- The adjacent-pair overlap scan of lines 251-255: the first `i` with
`start_i + extent_i > start_{i+1}`, if any. -/
def overlapScan : List (Nat × Int × Int) → Nat → Option Nat
  | a :: b :: t, i => if a.2.1 + a.2.2 > b.2.1 then some i else overlapScan (b :: t) (i + 1)
  | _, _ => none

/-- `Pipeline._build_surrogate_recipe` (lines 241-257): tag each surrogate
with its index, sort by `start mod module_count` (a stable sort standing in
for `np.argsort`; they agree whenever the keys are distinct), then raise on
the first adjacent overlapping pair.  An empty surrogate list yields the
empty recipe.  `n = 0` with surrogates present models the
`ZeroDivisionError` of `% self.n_module`. -/
def buildSurrogateRecipe (sl : List Surrogate) (n : Nat) :
    Except String (List (Nat × Int × Int)) :=
  if sl.isEmpty then .ok []
  else if n = 0 then .error "ZeroDivisionError"
  else
    let tagged := sl.enum.map (fun p => (p.1, p.2.scope.1, p.2.scope.2))
    let sorted := List.insertionSort
      (fun a b => surrogateKey n a ≤ surrogateKey n b) tagged
    match overlapScan sorted 0 with
    | some i => .error ("the #" ++ toString i ++ " surrogate model overlaps with the next one.")
    | none => .ok sorted

/-! ### The variable-transform layer (`_PipelineBase`) -/

/-- `hard_bounds`: a single bool or a per-dimension-per-side mask. -/
inductive HardBounds
  | all (b : Bool)
  | perDim (m : List (Bool × Bool))
deriving DecidableEq

/-- `_hb` normalization of `_constraint` (lines 100-103): a bool expands to
`b * np.ones((x.shape[-1], 2))`. -/
def normHB : HardBounds → Nat → List (Bool × Bool)
  | .all b, n => List.replicate n (b, b)
  | .perDim m, _ => m

/-- Modelled from the spec: the compiled per-dimension transform kernels
(`_from_original_f`, `_from_original_j`, … imported from
`bayesfast.transforms._constraint`, which is not part of the sources).  Each
maps `(scales, hard-bound mask, coordinate row)` to a row of the same length;
the claims below hold for every choice of kernels. -/
structure ConstraintKernels where
  from_f : List (ℚ × ℚ) → List (Bool × Bool) → Vec → Vec
  from_j : List (ℚ × ℚ) → List (Bool × Bool) → Vec → Vec
  from_jj : List (ℚ × ℚ) → List (Bool × Bool) → Vec → Vec
  to_f : List (ℚ × ℚ) → List (Bool × Bool) → Vec → Vec
  to_j : List (ℚ × ℚ) → List (Bool × Bool) → Vec → Vec
  to_jj : List (ℚ × ℚ) → List (Bool × Bool) → Vec → Vec

/-- The `Pipeline` configuration state (constructor lines 196-203 plus the
derived `_input_cum` and `_surrogate_recipe`). -/
structure Pipeline where
  module_list : List Module
  surrogate_list : List Surrogate
  surrogate_recipe : List (Nat × Int × Int)
  input_vars : List String
  input_cum : Option (List Nat)
  var_scales : Option (List (ℚ × ℚ))
  hard_bounds : HardBounds

/-- The `surrogate_list` setter (lines 227-239): validation runs
`_build_surrogate_recipe` eagerly at assignment time; on success both the
list and the rebuilt recipe are stored. -/
def setSurrogateList (p : Pipeline) (sl : List Surrogate) : Except String Pipeline :=
  match buildSurrogateRecipe sl p.module_list.length with
  | .error e => .error e
  | .ok r => .ok { p with surrogate_list := sl, surrogate_recipe := r }

/-- `_PipelineBase.from_original` = `_constraint(x, True, …, k=0)`
(lines 68-87, 118-119): identity when no scale is configured, else the
external kernel. -/
def from_original (p : Pipeline) (K : ConstraintKernels) (x : Vec) : Vec :=
  match p.var_scales with
  | none => x
  | some sc => K.from_f sc (normHB p.hard_bounds x.length) x

/-- `_PipelineBase.from_original_grad` = `_constraint(…, k=1)` (lines 68-87,
121-122): `np.ones_like(x)` when no scale is configured. -/
def from_original_grad (p : Pipeline) (K : ConstraintKernels) (x : Vec) : Vec :=
  match p.var_scales with
  | none => x.map (fun _ => (1 : ℚ))
  | some sc => K.from_j sc (normHB p.hard_bounds x.length) x

/-- `_PipelineBase.from_original_grad2` = `_constraint(…, k=2)` (lines 68-87,
124-126): `np.zeros_like(x)` when no scale is configured. -/
def from_original_grad2 (p : Pipeline) (K : ConstraintKernels) (x : Vec) : Vec :=
  match p.var_scales with
  | none => x.map (fun _ => (0 : ℚ))
  | some sc => K.from_jj sc (normHB p.hard_bounds x.length) x

/-- `_PipelineBase.to_original` (lines 128-129). -/
def to_original (p : Pipeline) (K : ConstraintKernels) (x : Vec) : Vec :=
  match p.var_scales with
  | none => x
  | some sc => K.to_f sc (normHB p.hard_bounds x.length) x

/-- `_PipelineBase.to_original_grad` (lines 131-132). -/
def to_original_grad (p : Pipeline) (K : ConstraintKernels) (x : Vec) : Vec :=
  match p.var_scales with
  | none => x.map (fun _ => (1 : ℚ))
  | some sc => K.to_j sc (normHB p.hard_bounds x.length) x

/-- `_PipelineBase.to_original_grad2` (lines 134-135). -/
def to_original_grad2 (p : Pipeline) (K : ConstraintKernels) (x : Vec) : Vec :=
  match p.var_scales with
  | none => x.map (fun _ => (0 : ℚ))
  | some sc => K.to_jj sc (normHB p.hard_bounds x.length) x

/-- The summand `-np.sum(np.log(np.abs(from_original_grad(x))), axis=-1)` of
`_get_diff` for one row of `x`; `logq` stands for the transcendental
`np.log`, on which none of the claims depend. -/
def diffRowX (logq : ℚ → ℚ) (p : Pipeline) (K : ConstraintKernels) (row : Vec) : ℚ :=
  -(((from_original_grad p K row).map (fun a => logq |a|)).sum)

/-- The summand `np.sum(np.log(np.abs(to_original_grad(x_trans))), axis=-1)`
of `_get_diff` for one row of `x_trans`. -/
def diffRowXTrans (logq : ℚ → ℚ) (p : Pipeline) (K : ConstraintKernels) (row : Vec) : ℚ :=
  ((to_original_grad p K row).map (fun a => logq |a|)).sum

/-- `_PipelineBase._get_diff` (lines 137-145) on a batch of coordinate rows:
`x` takes precedence when supplied; only when both are `None` does the
`ValueError` fire. -/
def getDiff (logq : ℚ → ℚ) (p : Pipeline) (K : ConstraintKernels)
    (x : Option (List Vec)) (x_trans : Option (List Vec)) : Except String (List ℚ) :=
  match x with
  | some xs => .ok (xs.map (diffRowX logq p K))
  | none =>
    match x_trans with
    | some xts => .ok (xts.map (diffRowXTrans logq p K))
    | none => .error "x and x_trans cannot both be None."

/-- `_PipelineBase.to_original_density` (lines 147-153): compute the
log-Jacobian difference, validate the element counts, subtract. -/
def to_original_density (logq : ℚ → ℚ) (p : Pipeline) (K : ConstraintKernels)
    (density : List ℚ) (x_trans : Option (List Vec)) (x : Option (List Vec)) :
    Except String (List ℚ) :=
  match getDiff logq p K x x_trans with
  | .error e => .error e
  | .ok diff =>
    if density.length = diff.length then .ok (List.zipWith (· - ·) density diff)
    else .error "the shape of density is inconsistent with the shape of x_trans or x."

/-- `_PipelineBase.from_original_density` (lines 155-161). -/
def from_original_density (logq : ℚ → ℚ) (p : Pipeline) (K : ConstraintKernels)
    (density : List ℚ) (x : Option (List Vec)) (x_trans : Option (List Vec)) :
    Except String (List ℚ) :=
  match getDiff logq p K x x_trans with
  | .error e => .error e
  | .ok diff =>
    if density.length = diff.length then .ok (List.zipWith (· + ·) density diff)
    else .error "the shape of density is inconsistent with the shape of x or x_trans."

/-! ### Single-vector pipeline evaluation -/

/-- Python slice `l[a:b]` for `0 ≤ a ≤ b`. -/
def pySlice {α : Type} (l : List α) (a b : Nat) : List α := (l.drop a).take (b - a)

/-- `np.diag(v)`. -/
def diagM (v : Vec) : Mat :=
  (List.range v.length).map
    (fun i => (List.range v.length).map (fun j => if i = j then v.getD i 0 else 0))

/-- One `x[self._input_cum[i]:self._input_cum[i + 1]]` slice entry. -/
def seedSliceF (c : List Nat) (x : Vec) (p : Nat × String) : Option (String × Vec) := do
  let a ← c.get? p.1
  let b ← c.get? (p.1 + 1)
  pure (p.2, pySlice x a b)

/-- Seeding of `Pipeline.fun` for a single 1-d float input (lines 322-328):
one whole block under the first input name when `_input_cum is None`, else
consecutive slices under the input names. -/
def seedDictFun (iv : List String) (cum : Option (List Nat)) (x : Vec) :
    Option VariableDict :=
  match cum with
  | none => iv.head?.map (fun n0 => ⟨aset [] n0 x, []⟩)
  | some c =>
    (iv.enum.mapM (seedSliceF c x)).map
      (fun entries => ⟨entries.foldl (fun acc e => aset acc e.1 e.2) [], []⟩)

def seedSliceFJ (c : List Nat) (x : Vec) (j : Mat) (p : Nat × String) :
    Option (String × Vec × Mat) := do
  let a ← c.get? p.1
  let b ← c.get? (p.1 + 1)
  pure (p.2, pySlice x a b, pySlice j a b)

/-- Seeding of `Pipeline.fun_and_jac` (lines 423-432): values as above plus
the matching row slices of the initial Jacobian `j`. -/
def seedDictFAJ (iv : List String) (cum : Option (List Nat)) (x : Vec) (j : Mat) :
    Option VariableDict :=
  match cum with
  | none => iv.head?.map (fun n0 => ⟨aset [] n0 x, aset [] n0 j⟩)
  | some c =>
    (iv.enum.mapM (seedSliceFJ c x j)).map
      (fun entries => entries.foldl
        (fun acc e => ⟨aset acc.fvals e.1 e.2.1, aset acc.jvals e.1 e.2.2⟩)
        (⟨[], []⟩ : VariableDict))

/-- `Pipeline.fun` on one 1-d float input, returning the final dictionary
(extraction happens in the wrappers below).  `start`/`stop` are the resolved
step bounds of `_options_check`. -/
def pipeFunCore (p : Pipeline) (K : ConstraintKernels) (us os : Bool)
    (start stop : Int) (x : Vec) : Except PErr VariableDict :=
  let x1 := if os then x else to_original p K x
  match seedDictFun p.input_vars p.input_cum x1 with
  | none => .error (.raw "IndexError: empty input_vars")
  | some d => runStages stepFun p.module_list p.surrogate_list p.surrogate_recipe start stop us d

/-- `Pipeline.fun_and_jac` on one 1-d float input (lines 417-432 seed the
initial Jacobian: `np.eye` in original space, `np.diag(to_original_grad(x))`
otherwise), returning the final dictionary. -/
def pipeFAJCore (p : Pipeline) (K : ConstraintKernels) (us os : Bool)
    (start stop : Int) (x : Vec) : Except PErr VariableDict :=
  let j := if os then eye x.length else diagM (to_original_grad p K x)
  let x1 := if os then x else to_original p K x
  match seedDictFAJ p.input_vars p.input_cum x1 j with
  | none => .error (.raw "IndexError: empty input_vars")
  | some d => runStages stepFAJ p.module_list p.surrogate_list p.surrogate_recipe start stop us d

/-- `Pipeline.fun` with a string `extract_vars` (line 385:
`var_dict._fun[extract_vars]`; a missing name raises `KeyError`). -/
def pipeFunVar (p : Pipeline) (K : ConstraintKernels) (us os : Bool)
    (start stop : Int) (x : Vec) (name : String) : Except PErr Vec :=
  match pipeFunCore p K us os start stop x with
  | .error e => .error e
  | .ok d =>
    match alookup d.fvals name with
    | none => .error (.raw "KeyError")
    | some v => .ok v

/-- `Pipeline.fun_and_jac` with a string `extract_vars` (line 519:
`var_dict[extract_vars]`).  Modelled from the spec: `VariableDict.__getitem__`
with a single name returns the `(value, jacobian)` pair. -/
def pipeFAJVar (p : Pipeline) (K : ConstraintKernels) (us os : Bool)
    (start stop : Int) (x : Vec) (name : String) : Except PErr (Vec × Mat) :=
  match pipeFAJCore p K us os start stop x with
  | .error e => .error e
  | .ok d =>
    match alookup d.fvals name, alookup d.jvals name with
    | some v, some jm => .ok (v, jm)
    | _, _ => .error (.raw "KeyError")

/-- Resolved default `stop` (`_step_check`, lines 271-286): `n_module - 1`. -/
def defaultStop (p : Pipeline) : Int := (p.module_list.length : Int) - 1

/-! ### The `Density` specialization -/

/-- `np.einsum('...i,ij,...j', v, H, v)` for one row `v`. -/
def qform (H : Mat) (v : Vec) : ℚ := dot v (H.map (fun r => dot r v))

/-- Elementwise difference `u - v` of equal-length rows. -/
def subV (u v : Vec) : Vec := List.zipWith (· - ·) u v

/-- `np.dot(vector, matrix)`. -/
def vecMat (v : Vec) (H : Mat) : Vec :=
  (List.range (matWidth H)).map (fun j => dot v (colJ H j))

/-- The decay penalty `gamma * np.clip(beta2 - alpha2, 0, np.inf)`
(lines 598, 630). -/
def decayPenalty (g a2 b2 : ℚ) : ℚ := g * max 0 (b2 - a2)

/-- The decay state and density-name configuration of `Density`
(`__init__` lines 573-576 and the `alpha`/`gamma`/`mu`/`hess`/`use_decay`
properties, lines 640-693).  `none` models an attribute never set; the
`alpha` setter keeps `_alpha2 = alpha ** 2` in sync, so the model stores
`alpha` once and squares it where the source reads `_alpha2`. -/
structure Density extends Pipeline where
  density_name : String
  use_decay : Bool
  mu : Option Vec
  hess : Option Mat
  alpha : Option ℚ
  gamma : Option ℚ

/-- `Density.logp` (lines 590-601) for a single 1-d input: extract the
density variable, take `[..., 0]`, subtract the decay penalty when
`self._use_decay and use_surrogate`, and add the log-Jacobian difference in
transformed space. -/
def logp (D : Density) (K : ConstraintKernels) (logq : ℚ → ℚ) (x : Vec)
    (us os : Bool) : Except PErr ℚ :=
  match pipeFunVar D.toPipeline K us os 0 (defaultStop D.toPipeline) x D.density_name with
  | .error e => .error e
  | .ok lv =>
    match lv.head? with
    | none => .error (.raw "IndexError")
    | some l0 =>
      let tail : ℚ → Except PErr ℚ := fun l =>
        if os then .ok l else .ok (l + diffRowXTrans logq D.toPipeline K x)
      if D.use_decay && us then
        match D.mu, D.hess, D.alpha, D.gamma with
        | some mu, some H, some a, some g =>
          let x_o := if os then x else to_original D.toPipeline K x
          let beta2 := qform H (subV x_o mu)
          tail (l0 - decayPenalty g (a ^ 2) beta2)
        | _, _, _, _ => .error (.raw "AttributeError")
      else tail l0

/-- `Density.grad` (lines 605-617) for a single 1-d input: extract the
density variable's Jacobian, take `[..., 0, :]`, subtract
`2 * gamma * np.dot(x_o - mu, hess) * (beta2 > alpha2)` when decaying, and
add `to_original_grad2(x) / to_original_grad(x)` in transformed space. -/
def grad (D : Density) (K : ConstraintKernels) (x : Vec) (us os : Bool) :
    Except PErr Vec :=
  match pipeFAJVar D.toPipeline K us os 0 (defaultStop D.toPipeline) x D.density_name with
  | .error e => .error e
  | .ok fj =>
    match fj.2.head? with
    | none => .error (.raw "IndexError")
    | some g0 =>
      let tail : Vec → Except PErr Vec := fun g =>
        if os then .ok g
        else .ok (List.zipWith (· + ·) g
          (List.zipWith (· / ·) (to_original_grad2 D.toPipeline K x)
            (to_original_grad D.toPipeline K x)))
      if D.use_decay && us then
        match D.mu, D.hess, D.alpha, D.gamma with
        | some mu, some H, some a, some g =>
          let x_o := if os then x else to_original D.toPipeline K x
          let dd := subV x_o mu
          let beta2 := qform H dd
          tail (subV g0 ((vecMat dd H).map
            (fun t => 2 * g * t * (if a ^ 2 < beta2 then 1 else 0))))
        | _, _, _, _ => .error (.raw "AttributeError")
      else tail g0

/-- `Density.logp_and_grad` (lines 619-636) for a single 1-d input: one
`fun_and_jac` call supplies `_logp = faj[0][..., 0]` and
`_grad = faj[1][..., 0, :]`, then the same decay and space corrections. -/
def logp_and_grad (D : Density) (K : ConstraintKernels) (logq : ℚ → ℚ) (x : Vec)
    (us os : Bool) : Except PErr (ℚ × Vec) :=
  match pipeFAJVar D.toPipeline K us os 0 (defaultStop D.toPipeline) x D.density_name with
  | .error e => .error e
  | .ok fj =>
    match fj.1.head?, fj.2.head? with
    | some l0, some g0 =>
      let tail : ℚ → Vec → Except PErr (ℚ × Vec) := fun l g =>
        if os then .ok (l, g)
        else .ok (l + diffRowXTrans logq D.toPipeline K x,
          List.zipWith (· + ·) g
            (List.zipWith (· / ·) (to_original_grad2 D.toPipeline K x)
              (to_original_grad D.toPipeline K x)))
      if D.use_decay && us then
        match D.mu, D.hess, D.alpha, D.gamma with
        | some mu, some H, some a, some g =>
          let x_o := if os then x else to_original D.toPipeline K x
          let dd := subV x_o mu
          let beta2 := qform H dd
          tail (l0 - decayPenalty g (a ^ 2) beta2)
            (subV g0 ((vecMat dd H).map
              (fun t => 2 * g * t * (if a ^ 2 < beta2 then 1 else 0))))
        | _, _, _, _ => .error (.raw "AttributeError")
      else tail l0 g0
    | _, _ => .error (.raw "IndexError")

/-- `np.mean(x_o, axis=0)`. -/
def meanVec (xs : List Vec) : Vec :=
  (List.range (matWidth xs)).map (fun j => (colJ xs j).sum / (xs.length : ℚ))

/-- Modelled from the spec: the external numerical routines consumed by
`Density.set_decay` — `np.cov(·, rowvar=False)`, `np.linalg.inv` (`none`
models the `LinAlgError` on a singular matrix), the square root `** 0.5` and
`np.percentile`.  The claims hold for every choice of these routines. -/
structure NumKernels where
  cov : List Vec → Mat
  inv : Mat → Option Mat
  sqrtq : ℚ → ℚ
  percentile : List ℚ → ℚ → ℚ

/-- `Density.set_decay` (lines 695-729): recompute `mu` and `hess` from the
sample batch, resolve `alpha` (explicit value, else percentile / scaled
maximum of the Mahalanobis radii whenever `alpha` was never set or `alpha_p`
is given), resolve `gamma` (explicit value, else keep, else default `0.1`),
and finally set `use_decay = True`. -/
def set_decay (D : Density) (K : ConstraintKernels) (NK : NumKernels) (x : List Vec)
    (original_space : Bool) (alpha : Option ℚ) (alpha_p : Option ℚ) (gamma : Option ℚ) :
    Except String Density :=
  let x_o := if original_space then x else x.map (to_original D.toPipeline K)
  let mu := meanVec x_o
  match NK.inv (NK.cov x_o) with
  | none => .error "LinAlgError: singular matrix"
  | some hess =>
    let alphaRes : Except String ℚ :=
      match alpha with
      | some a => if 0 < a then .ok a else .error "alpha should be a positive float."
      | none =>
        if D.alpha = none ∨ alpha_p ≠ none then
          match alpha_p with
          | none => .error "alpha_p should be a positive float."
          | some ap =>
            if 0 < ap then
              let beta := x_o.map (fun r => NK.sqrtq (qform hess (subV r mu)))
              let aNew : Except String ℚ :=
                if ap < 100 then .ok (NK.percentile beta ap)
                else
                  match beta.max? with
                  | none => .error "zero-size array to reduction operation"
                  | some mx => .ok (mx * ap / 100)
              match aNew with
              | .error e => .error e
              | .ok v => if 0 < v then .ok v else .error "alpha should be a positive float."
            else .error "alpha_p should be a positive float."
        else
          match D.alpha with
          | some a => .ok a
          | none => .error "unreachable"
    match alphaRes with
    | .error e => .error e
    | .ok aF =>
      let gammaRes : Except String ℚ :=
        match gamma with
        | some g => if 0 < g then .ok g else .error "gamma should be a positive float."
        | none =>
          match D.gamma with
          | none => .ok (1 / 10)
          | some g => .ok g
      match gammaRes with
      | .error e => .error e
      | .ok gF =>
        .ok { D with mu := some mu, hess := some hess, alpha := some aF,
                     gamma := some gF, use_decay := true }

/-- `Density._fit_var` (lines 773-776): per record, concatenate the values
bound to the given names; a missing name raises `KeyError`. -/
def fitVar (vds : List VariableDict) (names : List String) : Option (List Vec) :=
  vds.mapM (fun vd => (names.mapM (alookup vd.fvals)).map List.flatten)

/-- `(x - su._var_scales[:, 0]) / su._var_scales_diff` (line 761). -/
def unscaleRow (sc : List (ℚ × ℚ)) (r : Vec) : Vec :=
  List.zipWith (fun a p => (a - p.1) / (p.2 - p.1)) r sc

/-- The per-surrogate calibration loop of `Density.fit` (lines 758-771):
gather each surrogate's inputs (unscaled if it owns scales), outputs and the
log-density column, then hand them to the surrogate's external `fit`;
`sfit i = false` models that call raising. -/
def fitLoop (var_dicts : List VariableDict) (dname : String) (sfit : Nat → Bool) :
    List Surrogate → Nat → Except String Unit
  | [], _ => .ok ()
  | su :: rest, i =>
    match fitVar var_dicts su.input_vars with
    | none => .error "KeyError"
    | some x =>
      let _xs := match su.var_scales with
        | none => x
        | some sc => x.map (unscaleRow sc)
      match fitVar var_dicts su.output_vars with
      | none => .error "KeyError"
      | some _y =>
        match fitVar var_dicts [dname] with
        | none => .error "KeyError"
        | some _lp =>
          if sfit i then fitLoop var_dicts dname sfit rest (i + 1)
          else .error "surrogate fit failed"

/-- `Density.fit` (lines 731-771) with `decay_options` and `fit_options` at
their defaults: `use_decay=True` routes the gathered input columns through
`set_decay` (with its default arguments), `use_decay=False` clears the flag;
then the surrogate calibration loop runs. -/
def fit (D : Density) (K : ConstraintKernels) (NK : NumKernels)
    (var_dicts : List VariableDict) (use_decay : Bool) (sfit : Nat → Bool) :
    Except String Density :=
  let step1 : Except String Density :=
    if use_decay then
      match fitVar var_dicts D.input_vars with
      | none => .error "KeyError"
      | some x => set_decay D K NK x true none (some 150) none
    else .ok { D with use_decay := false }
  match step1 with
  | .error e => .error e
  | .ok D1 =>
    match fitLoop var_dicts D1.density_name sfit D1.surrogate_list 0 with
    | .error e => .error e
    | .ok _ => .ok D1

/-! ### Batched evaluation (`Pipeline.fun` lines 312-334,
`Pipeline.fun_and_jac` lines 433-463) -/

/-- A float numpy input of rank ≥ 1 (`vec`: one 1-d coordinate row) or a
batch over a leading dimension (`arr`), which also models a 1-d object array
of sub-inputs. -/
inductive NdArr
  | vec (v : Vec)
  | arr (l : List NdArr)

/-- Value-mode results: a whole `VariableDict`, an extracted value, or the
stacked batch (`np.asarray` of the recursive results). -/
inductive FunOut
  | dict (d : VariableDict)
  | val (v : Vec)
  | batch (l : List FunOut)

mutual

/-- `Pipeline.fun` over arbitrary-rank inputs: any rank above 1 (or an object
array) recurses once per leading-batch element with `conf` — the resolved
`(use_surrogate, original_space, start, stop, extract_vars)` tuple — passed
unchanged (lines 329-334), and stacks the recursive results. -/
def pipeFunNd (p : Pipeline) (K : ConstraintKernels) (us os : Bool)
    (start stop : Int) (extract : Option String) : NdArr → Except PErr FunOut
  | .vec v =>
    match extract with
    | none => (pipeFunCore p K us os start stop v).map .dict
    | some n => (pipeFunVar p K us os start stop v n).map .val
  | .arr l =>
    match pipeFunNdList p K us os start stop extract l with
    | .error e => .error e
    | .ok ys => .ok (.batch ys)

/-- The list comprehension `[self.fun(_x, *conf) for _x in x]`: sequential,
short-circuiting on the first exception. -/
def pipeFunNdList (p : Pipeline) (K : ConstraintKernels) (us os : Bool)
    (start stop : Int) (extract : Option String) : List NdArr → Except PErr (List FunOut)
  | [] => .ok []
  | a :: rest =>
    match pipeFunNd p K us os start stop extract a with
    | .error e => .error e
    | .ok y =>
      match pipeFunNdList p K us os start stop extract rest with
      | .error e => .error e
      | .ok ys => .ok (y :: ys)

end

/-- The `result_f[i] = …; result_j[i] = …` fill loop of batched
`fun_and_jac` (lines 453-456) after the prototype element fixed the result
shapes: each later element is evaluated with the same `conf` and must match
the prototype's shapes (the numpy assignment raises otherwise). -/
def fajFill (p : Pipeline) (K : ConstraintKernels) (us os : Bool)
    (start stop : Int) (name : String) (fshape jrows jcols : Nat) :
    List Vec → Except PErr (List (Vec × Mat))
  | [] => .ok []
  | r :: rs =>
    match pipeFAJVar p K us os start stop r name with
    | .error e => .error e
    | .ok fj =>
      if fj.1.length = fshape ∧ fj.2.length = jrows ∧ matWidth fj.2 = jcols then
        match fajFill p K us os start stop name fshape jrows jcols rs with
        | .error e => .error e
        | .ok out => .ok (fj :: out)
      else .error (.raw "could not broadcast")

/-- `Pipeline.fun_and_jac` on a flattened 2-d float batch with a string
`extract_vars` (lines 445-458): evaluate row 0 to fix the result shapes,
then fill the remaining rows with the same `conf`. -/
def pipeFAJBatch (p : Pipeline) (K : ConstraintKernels) (us os : Bool)
    (start stop : Int) (name : String) (rows : List Vec) :
    Except PErr (List (Vec × Mat)) :=
  match rows with
  | [] => .error (.raw "IndexError: x_f[0] of a zero-size batch")
  | r0 :: rest =>
    match pipeFAJVar p K us os start stop r0 name with
    | .error e => .error e
    | .ok fj0 =>
      match fajFill p K us os start stop name fj0.1.length fj0.2.length (matWidth fj0.2) rest with
      | .error e => .error e
      | .ok out => .ok (fj0 :: out)

/-- The object-result branch of batched `fun_and_jac` (lines 459-463,
`extract_vars` not a single name): the `for i in range(size)` loop filling
an object array with one recursive result per flattened element, with the
same `conf`, aborting on the first exception. -/
def pipeFAJBatchObj (p : Pipeline) (K : ConstraintKernels) (us os : Bool)
    (start stop : Int) : List Vec → Except PErr (List VariableDict)
  | [] => .ok []
  | r :: rs =>
    match pipeFAJCore p K us os start stop r with
    | .error e => .error e
    | .ok dres =>
      match pipeFAJBatchObj p K us os start stop rs with
      | .error e => .error e
      | .ok out => .ok (dres :: out)

/-! ### Concrete fixtures used by the witnesses -/

/-- Identity transform kernels (any choice works for the quantified
theorems; the witnesses need one concrete instance). -/
def idK : ConstraintKernels :=
  ⟨fun _ _ v => v, fun _ _ v => v, fun _ _ v => v,
   fun _ _ v => v, fun _ _ v => v, fun _ _ v => v⟩

/-- A pipeline with no modules, no surrogates and no scales. -/
def emptyPipe : Pipeline := ⟨[], [], [], ["__var__"], none, none, .all false⟩

/-! ### Claim theorems -/

/-- **C6** — When `var_scales` is `None`, `from_original` and `to_original`
return the input unchanged, `from_original_grad`/`to_original_grad` return an
all-ones array of the same shape, and
`from_original_grad2`/`to_original_grad2` return an all-zeros array of the
same shape. -/
theorem c6_no_scale_transforms (p : Pipeline) (K : ConstraintKernels) (x : Vec)
    (h : p.var_scales = none) :
    from_original p K x = x ∧ to_original p K x = x ∧
    from_original_grad p K x = x.map (fun _ => (1 : ℚ)) ∧
    to_original_grad p K x = x.map (fun _ => (1 : ℚ)) ∧
    from_original_grad2 p K x = x.map (fun _ => (0 : ℚ)) ∧
    to_original_grad2 p K x = x.map (fun _ => (0 : ℚ)) := by
  unfold from_original to_original from_original_grad to_original_grad
    from_original_grad2 to_original_grad2
  rw [h]
  exact ⟨rfl, rfl, rfl, rfl, rfl, rfl⟩

theorem c6_no_scale_transforms_witness :
    from_original emptyPipe idK [3, 5] = [3, 5] ∧ to_original emptyPipe idK [3, 5] = [3, 5] ∧
    from_original_grad emptyPipe idK [3, 5] = [1, 1] ∧
    to_original_grad emptyPipe idK [3, 5] = [1, 1] ∧
    from_original_grad2 emptyPipe idK [3, 5] = [0, 0] ∧
    to_original_grad2 emptyPipe idK [3, 5] = [0, 0] := by
  have h := c6_no_scale_transforms emptyPipe idK [3, 5] rfl
  simpa using h

/-- **C8, counterexample** — The claim says supplying both coordinates to
`_get_diff` is an error; in the source `x` is checked first and `x_trans` is
silently ignored, so supplying both succeeds. -/
theorem c8_both_supplied_succeeds :
    getDiff (fun _ => 0) emptyPipe idK (some [[1]]) (some [[2]]) = .ok [0] := by
  simp [getDiff, diffRowX, from_original_grad, emptyPipe]

/-- **C8, amended** — `_get_diff` raises only when both `x` and `x_trans`
are `None`; when both are supplied, `x` takes precedence and `x_trans` is
ignored, and either single argument succeeds. -/
theorem c8_get_diff_arguments (logq : ℚ → ℚ) (p : Pipeline) (K : ConstraintKernels)
    (xs xts : List Vec) :
    (∃ msg, getDiff logq p K none none = Except.error msg) ∧
    getDiff logq p K (some xs) (some xts) = getDiff logq p K (some xs) none ∧
    (getDiff logq p K (some xs) (some xts)).isOk = true ∧
    (getDiff logq p K none (some xts)).isOk = true :=
  ⟨⟨_, rfl⟩, rfl, rfl, rfl⟩

theorem zipWith_sub_add_cancel (d diff : List ℚ) (h : d.length = diff.length) :
    List.zipWith (· + ·) (List.zipWith (· - ·) d diff) diff = d := by
  induction d generalizing diff with
  | nil => simp
  | cons a t ih =>
    cases diff with
    | nil => simp at h
    | cons b tb =>
      simp only [List.zipWith_cons_cons, List.cons.injEq]
      exact ⟨by ring, ih tb (by simpa using h)⟩

/-- **C9** — For a log-density array and an original-space coordinate batch
with matching element counts, `from_original_density (to_original_density d)`
returns `d` exactly (the same log-Jacobian difference is subtracted then
added); on a count mismatch both conversions raise. -/
theorem c9_density_roundtrip (logq : ℚ → ℚ) (p : Pipeline) (K : ConstraintKernels)
    (d : List ℚ) (xs : List Vec) (h : d.length = xs.length) :
    ((to_original_density logq p K d none (some xs)).bind
      (fun d1 => from_original_density logq p K d1 (some xs) none)) = .ok d ∧
    (∀ d' : List ℚ, d'.length ≠ xs.length →
      (to_original_density logq p K d' none (some xs)).isOk = false ∧
      (from_original_density logq p K d' (some xs) none).isOk = false) := by
  constructor
  · have hd : d.length = (xs.map (diffRowX logq p K)).length := by
      rw [List.length_map]; exact h
    have hlen : (List.zipWith (· - ·) d (xs.map (diffRowX logq p K))).length
        = (xs.map (diffRowX logq p K)).length := by
      rw [List.length_zipWith, hd]
      exact Nat.min_self _
    simp only [to_original_density, from_original_density, getDiff, if_pos hd, Except.bind,
      if_pos hlen]
    rw [zipWith_sub_add_cancel _ _ hd]
  · intro d' hne
    have hd' : ¬ d'.length = (xs.map (diffRowX logq p K)).length := by
      rw [List.length_map]; exact hne
    constructor
    · simp only [to_original_density, getDiff]
      rw [if_neg hd']
      rfl
    · simp only [from_original_density, getDiff]
      rw [if_neg hd']
      rfl

theorem c9_density_roundtrip_witness :
    ((to_original_density (fun _ => 0) emptyPipe idK [7, 9] none (some [[1], [2]])).bind
      (fun d1 => from_original_density (fun _ => 0) emptyPipe idK d1 (some [[1], [2]]) none))
      = .ok [7, 9] := by
  have h := c9_density_roundtrip (fun _ => 0) emptyPipe idK [7, 9] [[1], [2]] rfl
  exact h.1

/-! ### Helper lemmas for the copy/delete semantics -/

theorem findCopyName_eq_of (used : String → Bool) (n : String) (fuel k m : Nat)
    (hkm : k ≤ m) (hfree : used (copyName n m) = false)
    (hbusy : ∀ j, k ≤ j → j < m → used (copyName n j) = true)
    (hfuel : m - k < fuel) :
    findCopyName used n fuel k = copyName n m := by
  induction fuel generalizing k with
  | zero => omega
  | succ f ih =>
    by_cases hk : used (copyName n k) = true
    · have hkm' : k < m := by
        rcases Nat.lt_or_ge k m with h | h
        · exact h
        · have : k = m := le_antisymm hkm h
          rw [this] at hk
          rw [hfree] at hk
          exact absurd hk (by simp)
      simp only [findCopyName, if_pos hk]
      exact ih (k + 1) hkm' (fun j h1 h2 => hbusy j (by omega) h2) (by omega)
    · have hk' : used (copyName n k) = false := by
        cases hcase : used (copyName n k) with
        | false => rfl
        | true => exact absurd hcase hk
      have hkm' : k = m := by
        rcases Nat.lt_or_ge k m with h | h
        · have := hbusy k le_rfl h
          rw [this] at hk'
          simp at hk'
        · exact le_antisymm hkm h
      simp only [findCopyName, if_neg hk]
      rw [hkm']

theorem aerase_exists_of_mem {α : Type} (l : List (String × α)) (n : String) (v : α)
    (h : alookup l n = some v) : ∃ l', aerase l n = some l' := by
  induction l with
  | nil => simp [alookup] at h
  | cons p t ih =>
    obtain ⟨k, w⟩ := p
    by_cases hk : k = n
    · exact ⟨t, by simp [aerase, hk]⟩
    · simp only [alookup, if_neg hk] at h
      obtain ⟨t', ht⟩ := ih h
      exact ⟨(k, w) :: t', by simp [aerase, hk, ht]⟩

theorem aset_keys_nodup {α : Type} (l : List (String × α)) (n : String) (v : α)
    (h : (l.map Prod.fst).Nodup) : ((aset l n v).map Prod.fst).Nodup := by
  induction l with
  | nil => simp [aset]
  | cons p t ih =>
    obtain ⟨k, w⟩ := p
    simp only [List.map_cons, List.nodup_cons] at h
    by_cases hk : k = n
    · simp only [aset, if_pos hk, List.map_cons, List.nodup_cons]
      exact ⟨h.1, h.2⟩
    · simp only [aset, if_neg hk, List.map_cons, List.nodup_cons]
      refine ⟨?_, ih h.2⟩
      intro hmem
      -- keys of `aset t n v` are keys of `t` plus `n`
      have : k ∈ t.map Prod.fst ∨ k = n := by
        clear ih h
        induction t with
        | nil =>
          simp only [aset, List.map_cons, List.map_nil, List.mem_cons] at hmem
          rcases hmem with hh | hh
          · exact Or.inr hh
          · simp at hh
        | cons q tt ihh =>
          obtain ⟨kq, wq⟩ := q
          by_cases hq : kq = n
          · simp only [aset, if_pos hq, List.map_cons, List.mem_cons] at hmem ⊢
            rcases hmem with hh | hh
            · exact Or.inl (Or.inl hh)
            · exact Or.inl (Or.inr hh)
          · simp only [aset, if_neg hq, List.map_cons, List.mem_cons] at hmem ⊢
            rcases hmem with hh | hh
            · exact Or.inl (Or.inl hh)
            · rcases ihh hh with hh2 | hh2
              · exact Or.inl (Or.inr hh2)
              · exact Or.inr hh2
      rcases this with hh | hh
      · exact h.1 hh
      · exact hk hh

theorem copyPhaseFAJ_cons_auto (m : Module) (n : String) (rest : List String) (j : Nat)
    (d : VariableDict) (hpj : m.paste_vars[j]? = none) (v : Vec) (jm : Mat)
    (hv : alookup d.fvals n = some v) (hj : alookup d.jvals n = some jm) :
    copyPhaseFAJ m (n :: rest) j d
      = copyPhaseFAJ m rest (j + 1)
          ⟨aset d.fvals (findCopyName (fun s => amem d.fvals s || amem d.jvals s) n (dictFuel d) 1) v,
           aset d.jvals (findCopyName (fun s => amem d.fvals s || amem d.jvals s) n (dictFuel d) 1) jm⟩ := by
  simp only [copyPhaseFAJ, hpj, hv, hj]

/-- **C5** — A copy directive without an explicit paste name binds the copy
to the first `<v>-Copy<k>` (k = 1, 2, …) not already bound (first conjunct:
the search loop, started at `k = 1` with sufficient fuel, returns the least
unused candidate).  Second conjunct: in Jacobian mode, copying `v` twice
without paste names binds `v-Copy1` then `v-Copy2`, duplicating both the
value and the Jacobian; a subsequent delete of `v` removes `v` from both
mappings while both copies remain. -/
theorem c5_copy_autoname_and_delete
    (d : VariableDict) (m : Module) (v : String) (xv : Vec) (xj : Mat)
    (hcopy : m.copy_vars = [v, v]) (hpaste : m.paste_vars = [])
    (hv : alookup d.fvals v = some xv) (hvj : alookup d.jvals v = some xj)
    (h1f : alookup d.fvals (copyName v 1) = none)
    (h1j : alookup d.jvals (copyName v 1) = none)
    (h2f : alookup d.fvals (copyName v 2) = none)
    (h2j : alookup d.jvals (copyName v 2) = none)
    (hndf : (d.fvals.map Prod.fst).Nodup) (hndj : (d.jvals.map Prod.fst).Nodup)
    (hne1 : copyName v 1 ≠ v) (hne2 : copyName v 2 ≠ v)
    (hne12 : copyName v 1 ≠ copyName v 2) :
    (∀ (used : String → Bool) (n : String) (fuel k : Nat),
      used (copyName n k) = false →
      (∀ j, 1 ≤ j → j < k → used (copyName n j) = true) →
      1 ≤ k → k - 1 < fuel →
      findCopyName used n fuel 1 = copyName n k) ∧
    (∃ d2, copyPhaseFAJ m m.copy_vars 0 d = .ok d2 ∧
      alookup d2.fvals (copyName v 1) = some xv ∧
      alookup d2.jvals (copyName v 1) = some xj ∧
      alookup d2.fvals (copyName v 2) = some xv ∧
      alookup d2.jvals (copyName v 2) = some xj ∧
      alookup d2.fvals v = some xv ∧ alookup d2.jvals v = some xj ∧
      (∃ d3, deletePhaseFAJ [v] d2 = .ok d3 ∧
        alookup d3.fvals v = none ∧ alookup d3.jvals v = none ∧
        alookup d3.fvals (copyName v 1) = some xv ∧
        alookup d3.jvals (copyName v 1) = some xj ∧
        alookup d3.fvals (copyName v 2) = some xv ∧
        alookup d3.jvals (copyName v 2) = some xj)) := by
  constructor
  · intro used n fuel k hfree hbusy hk hfuel
    exact findCopyName_eq_of used n fuel 1 k hk hfree hbusy hfuel
  · -- first copy resolves to `v-Copy1`
    have hnn1 : findCopyName (fun s => amem d.fvals s || amem d.jvals s) v (dictFuel d) 1
        = copyName v 1 := by
      apply findCopyName_eq_of _ _ _ 1 1 le_rfl
      · simp [amem, h1f, h1j]
      · intro j hj1 hj2
        omega
      · unfold dictFuel
        omega
    set c1 := copyName v 1 with hc1
    set c2 := copyName v 2 with hc2
    set d1 : VariableDict := ⟨aset d.fvals c1 xv, aset d.jvals c1 xj⟩ with hd1
    -- lookups in d1
    have hd1v : alookup d1.fvals v = some xv := by
      rw [hd1]
      rw [alookup_aset_ne _ _ _ _ (Ne.symm hne1)]
      exact hv
    have hd1vj : alookup d1.jvals v = some xj := by
      rw [hd1]
      rw [alookup_aset_ne _ _ _ _ (Ne.symm hne1)]
      exact hvj
    have hd1c1 : alookup d1.fvals c1 = some xv := by
      rw [hd1]
      exact alookup_aset_self _ _ _
    have hd1c1j : alookup d1.jvals c1 = some xj := by
      rw [hd1]
      exact alookup_aset_self _ _ _
    have hd1c2 : alookup d1.fvals c2 = none := by
      rw [hd1]
      rw [alookup_aset_ne _ _ _ _ (Ne.symm hne12)]
      exact h2f
    have hd1c2j : alookup d1.jvals c2 = none := by
      rw [hd1]
      rw [alookup_aset_ne _ _ _ _ (Ne.symm hne12)]
      exact h2j
    -- second copy resolves to `v-Copy2`
    have hnn2 : findCopyName (fun s => amem d1.fvals s || amem d1.jvals s) v (dictFuel d1) 1
        = copyName v 2 := by
      apply findCopyName_eq_of _ _ _ 1 2 (by omega)
      · simp [amem, hd1c2, hd1c2j]
      · intro j hj1 hj2
        have hj : j = 1 := by omega
        subst hj
        simp [amem, hd1c1]
      · unfold dictFuel
        omega
    set d2 : VariableDict := ⟨aset d1.fvals c2 xv, aset d1.jvals c2 xj⟩ with hd2
    have heval : copyPhaseFAJ m m.copy_vars 0 d = .ok d2 := by
      rw [hcopy]
      rw [copyPhaseFAJ_cons_auto m v [v] 0 d (by simp [hpaste]) xv xj hv hvj]
      rw [hnn1, ← hd1]
      rw [copyPhaseFAJ_cons_auto m v [] 1 d1 (by simp [hpaste]) xv xj hd1v hd1vj]
      rw [hnn2, ← hd2]
      simp only [copyPhaseFAJ]
    -- lookups in d2
    have hd2c1 : alookup d2.fvals c1 = some xv := by
      rw [hd2]
      rw [alookup_aset_ne _ _ _ _ hne12]
      exact hd1c1
    have hd2c1j : alookup d2.jvals c1 = some xj := by
      rw [hd2]
      rw [alookup_aset_ne _ _ _ _ hne12]
      exact hd1c1j
    have hd2c2 : alookup d2.fvals c2 = some xv := by
      rw [hd2]
      exact alookup_aset_self _ _ _
    have hd2c2j : alookup d2.jvals c2 = some xj := by
      rw [hd2]
      exact alookup_aset_self _ _ _
    have hd2v : alookup d2.fvals v = some xv := by
      rw [hd2]
      rw [alookup_aset_ne _ _ _ _ (Ne.symm hne2)]
      exact hd1v
    have hd2vj : alookup d2.jvals v = some xj := by
      rw [hd2]
      rw [alookup_aset_ne _ _ _ _ (Ne.symm hne2)]
      exact hd1vj
    have hnd2f : (d2.fvals.map Prod.fst).Nodup := by
      rw [hd2, hd1]
      exact aset_keys_nodup _ _ _ (aset_keys_nodup _ _ _ hndf)
    have hnd2j : (d2.jvals.map Prod.fst).Nodup := by
      rw [hd2, hd1]
      exact aset_keys_nodup _ _ _ (aset_keys_nodup _ _ _ hndj)
    -- delete phase
    obtain ⟨f3, hf3⟩ := aerase_exists_of_mem _ _ _ hd2v
    obtain ⟨j3, hj3⟩ := aerase_exists_of_mem _ _ _ hd2vj
    obtain ⟨hf3none, hf3pres, _⟩ := aerase_of_keysNodup d2.fvals v f3 hnd2f hf3
    obtain ⟨hj3none, hj3pres, _⟩ := aerase_of_keysNodup d2.jvals v j3 hnd2j hj3
    refine ⟨d2, heval, hd2c1, hd2c1j, hd2c2, hd2c2j, hd2v, hd2vj,
      ⟨⟨f3, j3⟩, ?_, hf3none, hj3none, ?_, ?_, ?_, ?_⟩⟩
    · simp only [deletePhaseFAJ, hf3, hj3]
    · rw [hf3pres c1 hne1]
      exact hd2c1
    · rw [hj3pres c1 hne1]
      exact hd2c1j
    · rw [hf3pres c2 hne2]
      exact hd2c2
    · rw [hj3pres c2 hne2]
      exact hd2c2j

/-- A dictionary binding `v` (value `[1]`, Jacobian `[[2]]`) only. -/
def c5d : VariableDict := ⟨[("v", [1])], [("v", [[2]])]⟩

/-- A stage that copies `v` twice without paste names. -/
def c5m : Module := ⟨[], [], ["v", "v"], [], [], fun _ => none, fun _ => none⟩

theorem c5_copy_autoname_and_delete_witness :
    ∃ d2, copyPhaseFAJ c5m c5m.copy_vars 0 c5d = .ok d2 ∧
      alookup d2.fvals (copyName "v" 1) = some [1] ∧
      alookup d2.jvals (copyName "v" 1) = some [[2]] ∧
      alookup d2.fvals (copyName "v" 2) = some [1] ∧
      alookup d2.jvals (copyName "v" 2) = some [[2]] ∧
      alookup d2.fvals "v" = some [1] ∧ alookup d2.jvals "v" = some [[2]] ∧
      (∃ d3, deletePhaseFAJ ["v"] d2 = .ok d3 ∧
        alookup d3.fvals "v" = none ∧ alookup d3.jvals "v" = none ∧
        alookup d3.fvals (copyName "v" 1) = some [1] ∧
        alookup d3.jvals (copyName "v" 1) = some [[2]] ∧
        alookup d3.fvals (copyName "v" 2) = some [1] ∧
        alookup d3.jvals (copyName "v" 2) = some [[2]]) :=
  (c5_copy_autoname_and_delete c5d c5m "v" [1] [[2]]
    (by decide) (by decide) (by decide) (by decide) (by decide) (by decide)
    (by decide) (by decide) (by decide) (by decide) (by decide) (by decide)
    (by decide)).2

/-! ### Helper lemmas for the Jacobian chain rule -/

theorem eye_mem_len (n : Nat) : ∀ r ∈ eye n, r.length = n := by
  intro r hr
  simp only [eye, List.mem_map] at hr
  obtain ⟨i, _, rfl⟩ := hr
  simp

theorem bindOutputsFAJ_preserve (inJac : Mat) (names : List String) (j0 : Nat)
    (outs : List Vec) (outjacs : List Mat) (d d' : VariableDict)
    (hok : bindOutputsFAJ inJac names j0 outs outjacs d = .ok d')
    (n : String) (hn : n ∉ names) :
    alookup d'.fvals n = alookup d.fvals n ∧ alookup d'.jvals n = alookup d.jvals n := by
  induction names generalizing j0 d with
  | nil =>
    simp only [bindOutputsFAJ, Except.ok.injEq] at hok
    subst hok
    exact ⟨rfl, rfl⟩
  | cons m rest ih =>
    simp only [bindOutputsFAJ] at hok
    simp only [List.mem_cons, not_or] at hn
    cases houts : outs[j0]? with
    | none => simp only [houts] at hok; exact absurd hok (by simp)
    | some o =>
      simp only [houts] at hok
      cases hjacs : outjacs[j0]? with
      | none => simp only [hjacs] at hok; exact absurd hok (by simp)
      | some oj =>
        simp only [hjacs] at hok
        cases hmm : matMulChk oj inJac with
        | none => simp only [hmm] at hok; exact absurd hok (by simp)
        | some jj =>
          simp only [hmm] at hok
          obtain ⟨h1, h2⟩ := ih (j0 + 1) _ hok hn.2
          constructor
          · rw [h1]
            exact alookup_aset_ne _ _ _ _ hn.1
          · rw [h2]
            exact alookup_aset_ne _ _ _ _ hn.1

theorem bindOutputsFAJ_jac (inJac : Mat) (names : List String) (j0 : Nat)
    (outs : List Vec) (outjacs : List Mat) (d d' : VariableDict)
    (hnd : names.Nodup)
    (hok : bindOutputsFAJ inJac names j0 outs outjacs d = .ok d') :
    ∀ i n, names[i]? = some n →
      ∃ o oj, outs[j0 + i]? = some o ∧ outjacs[j0 + i]? = some oj ∧
        alookup d'.fvals n = some o ∧
        alookup d'.jvals n = some (matMul oj inJac) := by
  induction names generalizing j0 d with
  | nil =>
    intro i n hin
    simp at hin
  | cons m rest ih =>
    intro i n hin
    simp only [bindOutputsFAJ] at hok
    cases houts : outs[j0]? with
    | none => simp only [houts] at hok; exact absurd hok (by simp)
    | some o =>
      simp only [houts] at hok
      cases hjacs : outjacs[j0]? with
      | none => simp only [hjacs] at hok; exact absurd hok (by simp)
      | some oj =>
        simp only [hjacs] at hok
        cases hmm : matMulChk oj inJac with
        | none => simp only [hmm] at hok; exact absurd hok (by simp)
        | some jj =>
          simp only [hmm] at hok
          have hjj : jj = matMul oj inJac := by
            unfold matMulChk at hmm
            by_cases hc : (oj.all (fun r => r.length == inJac.length)) = true
            · rw [if_pos hc] at hmm
              exact (Option.some.inj hmm).symm
            · rw [if_neg hc] at hmm
              cases hmm
          subst hjj
          simp only [List.nodup_cons] at hnd
          cases i with
          | zero =>
            simp only [List.getElem?_cons_zero, Option.some.injEq] at hin
            subst hin
            obtain ⟨hf, hj⟩ :=
              bindOutputsFAJ_preserve inJac rest (j0 + 1) outs outjacs _ d' hok m hnd.1
            refine ⟨o, oj, by simpa using houts, by simpa using hjacs, ?_, ?_⟩
            · rw [hf]
              exact alookup_aset_self _ _ _
            · rw [hj]
              exact alookup_aset_self _ _ _
          | succ i' =>
            simp only [List.getElem?_cons_succ] at hin
            obtain ⟨o2, oj2, h1, h2, h3, h4⟩ := ih (j0 + 1) _ hnd.2 hok i' n hin
            refine ⟨o2, oj2, ?_, ?_, h3, h4⟩
            · rw [show j0 + (i' + 1) = j0 + 1 + i' by omega]
              exact h1
            · rw [show j0 + (i' + 1) = j0 + 1 + i' by omega]
              exact h2

/-- One non-surrogate loop iteration with a successful step. -/
theorem runLoop_step_nosurr
    (step : Module → VariableDict → Except VariableDict VariableDict)
    (ml : List Module) (sl : List Surrogate) (recipe : List (Nat × Int × Int))
    (stop : Int) (fuel : Nat) (i : Int) (si : Nat) (d : VariableDict)
    (hle : i ≤ stop) (m : Module) (hm : pyGet ml i = some m)
    (d' : VariableDict) (hstep : step m d = .ok d') :
    runLoop step ml sl recipe stop (fuel + 1) i si false d
      = runLoop step ml sl recipe stop fuel (i + 1) si false d' := by
  have hsel : selectStage ml sl recipe i si false = some (m, 1, si, false) := by
    simp [selectStage, hm]
  simp only [runLoop, if_pos hle, hsel, hstep]

/-- The loop exits as soon as the cursor passes `stop`. -/
theorem runLoop_done
    (step : Module → VariableDict → Except VariableDict VariableDict)
    (ml : List Module) (sl : List Surrogate) (recipe : List (Nat × Int × Int))
    (stop : Int) (fuel : Nat) (i : Int) (si : Nat) (us : Bool) (d : VariableDict)
    (h : ¬ i ≤ stop) :
    runLoop step ml sl recipe stop fuel i si us d = .ok d := by
  cases fuel with
  | zero => simp only [runLoop, if_neg h]
  | succ f => simp only [runLoop, if_neg h]

theorem mapM_singleton {α β : Type} (f : α → Option β) (a : α) (b : β) (h : f a = some b) :
    List.mapM f [a] = some [b] := by
  simp [List.mapM, List.mapM.loop, h]

/-- `stepFAJ` on a single-input single-output stage with no copy/delete
directives. -/
theorem stepFAJ_simple (m : Module) (d : VariableDict) (iv ov : String)
    (hiv : m.input_vars = [iv]) (hov : m.output_vars = [ov])
    (hcp : m.copy_vars = []) (hdl : m.delete_vars = [])
    (x : Vec) (hx : alookup d.fvals iv = some x)
    (J : Mat) (hJ : alookup d.jvals iv = some J)
    (w : Nat) (hJw : ∀ r ∈ J, r.length = w)
    (y : Vec) (OJ : Mat) (hfaj : m.fun_and_jac [x] = some ([y], [OJ]))
    (hOJ : ∀ r ∈ OJ, r.length = J.length) :
    stepFAJ m d = .ok ⟨aset d.fvals ov y, aset d.jvals ov (matMul OJ J)⟩ := by
  have hgi : getInputs m d = some [x] := by
    rw [getInputs, hiv]
    exact mapM_singleton _ _ _ hx
  have hgj : getInputJacs m d = some J := by
    rw [getInputJacs, hiv, mapM_singleton _ _ _ hJ]
    simpa using concatChk_singleton J w hJw
  have hchk : matMulChk OJ J = some (matMul OJ J) := by
    unfold matMulChk
    rw [if_pos]
    rw [List.all_eq_true]
    intro r hr
    simp [hOJ r hr]
  simp only [stepFAJ, hgi, hgj, hfaj]
  simp only [bindOutputsFAJ, hov, List.getElem?_cons_zero, hchk]
  simp only [copyPhaseFAJ, hcp, deletePhaseFAJ, hdl, Except.bind, bind, Except.ok.injEq]

/-- The surrogate bookkeeping is inert when `use_surrogate` is false. -/
theorem runStages_nosurr
    (step : Module → VariableDict → Except VariableDict VariableDict)
    (ml : List Module) (sl : List Surrogate) (recipe : List (Nat × Int × Int))
    (start stop : Int) (d : VariableDict) :
    runStages step ml sl recipe start stop false d
      = runLoop step ml sl recipe stop ((stop + 1 - start).toNat + 1) start 0 false d := by
  simp [runStages]

/-- **C1** — First conjunct: in Jacobian mode, after a stage's output-binding
phase, the Jacobian stored for each declared output variable equals the
matrix product of that output block's local Jacobian with the accumulated
input Jacobian (the concatenation, in input-name order, of the already
stored Jacobians of the stage's input variables, as `getInputJacs` builds
it).  Second conjunct: for a 2-module pipeline `y = f(x)`, `z = g(y)`, the
stored Jacobian of `z` with respect to the pipeline input equals the matrix
product of `g`'s local Jacobian with `f`'s local Jacobian. -/
theorem c1_jacobian_chain_rule :
    (∀ (m : Module) (d : VariableDict) (inJac : Mat) (outs : List Vec)
        (outjacs : List Mat) (d' : VariableDict),
      getInputJacs m d = some inJac →
      m.output_vars.Nodup →
      bindOutputsFAJ inJac m.output_vars 0 outs outjacs d = .ok d' →
      ∀ (i : Nat) (n : String), m.output_vars[i]? = some n →
        ∃ o oj, outs[i]? = some o ∧ outjacs[i]? = some oj ∧
          alookup d'.fvals n = some o ∧
          alookup d'.jvals n = some (matMul oj inJac)) ∧
    (∀ (p : Pipeline) (K : ConstraintKernels) (mf mg : Module)
        (x yv zv : Vec) (Jf Jg : Mat),
      p.module_list = [mf, mg] → p.surrogate_list = [] →
      p.input_vars = ["x"] → p.input_cum = none →
      mf.input_vars = ["x"] → mf.output_vars = ["y"] →
      mf.copy_vars = [] → mf.delete_vars = [] →
      mf.fun_and_jac [x] = some ([yv], [Jf]) →
      (∀ r ∈ Jf, r.length = x.length) →
      mg.input_vars = ["y"] → mg.output_vars = ["z"] →
      mg.copy_vars = [] → mg.delete_vars = [] →
      mg.fun_and_jac [yv] = some ([zv], [Jg]) →
      (∀ r ∈ Jg, r.length = Jf.length) →
      ∃ dfin, pipeFAJCore p K false true 0 1 x = .ok dfin ∧
        alookup dfin.jvals "z" = some (matMul Jg Jf)) := by
  constructor
  · intro m d inJac outs outjacs d' hgj hnd hok i n hin
    have h := bindOutputsFAJ_jac inJac m.output_vars 0 outs outjacs d d' hnd hok i n hin
    simpa using h
  · intro p K mf mg x yv zv Jf Jg hml hsl hiv hcum hmf1 hmf2 hmf3 hmf4 hmff hJf
      hmg1 hmg2 hmg3 hmg4 hmgf hJg
    have hseed : seedDictFAJ p.input_vars p.input_cum x (eye x.length)
        = some ⟨aset [] "x" x, aset [] "x" (eye x.length)⟩ := by
      rw [hiv, hcum]
      rfl
    have hx0 : alookup (aset ([] : List (String × Vec)) "x" x) "x" = some x :=
      alookup_aset_self _ _ _
    have hj0 : alookup (aset ([] : List (String × Mat)) "x" (eye x.length)) "x"
        = some (eye x.length) := alookup_aset_self _ _ _
    have hstep1 : stepFAJ mf ⟨aset [] "x" x, aset [] "x" (eye x.length)⟩
        = .ok ⟨aset (aset [] "x" x) "y" yv,
               aset (aset [] "x" (eye x.length)) "y" Jf⟩ := by
      have h := stepFAJ_simple mf ⟨aset [] "x" x, aset [] "x" (eye x.length)⟩ "x" "y"
        hmf1 hmf2 hmf3 hmf4 x hx0 (eye x.length) hj0 x.length (eye_mem_len x.length)
        yv Jf hmff (by intro r hr; rw [eye_length]; exact hJf r hr)
      rw [matMul_eye Jf x.length hJf] at h
      exact h
    have hy1 : alookup (aset (aset ([] : List (String × Vec)) "x" x) "y" yv) "y"
        = some yv := alookup_aset_self _ _ _
    have hj1 : alookup (aset (aset ([] : List (String × Mat)) "x" (eye x.length)) "y" Jf) "y"
        = some Jf := alookup_aset_self _ _ _
    have hstep2 : stepFAJ mg ⟨aset (aset [] "x" x) "y" yv,
          aset (aset [] "x" (eye x.length)) "y" Jf⟩
        = .ok ⟨aset (aset (aset [] "x" x) "y" yv) "z" zv,
               aset (aset (aset [] "x" (eye x.length)) "y" Jf) "z" (matMul Jg Jf)⟩ :=
      stepFAJ_simple mg _ "y" "z" hmg1 hmg2 hmg3 hmg4 yv hy1 Jf hj1 x.length hJf
        zv Jg hmgf hJg
    have hpg0 : pyGet p.module_list 0 = some mf := by
      rw [hml]
      rfl
    have hpg1 : pyGet p.module_list 1 = some mg := by
      rw [hml]
      rfl
    have hrun : runStages stepFAJ p.module_list p.surrogate_list p.surrogate_recipe 0 1 false
        ⟨aset [] "x" x, aset [] "x" (eye x.length)⟩
        = .ok ⟨aset (aset (aset [] "x" x) "y" yv) "z" zv,
               aset (aset (aset [] "x" (eye x.length)) "y" Jf) "z" (matMul Jg Jf)⟩ := by
      rw [runStages_nosurr]
      rw [show ((1 : Int) + 1 - 0).toNat + 1 = 2 + 1 from by decide]
      rw [runLoop_step_nosurr stepFAJ p.module_list p.surrogate_list p.surrogate_recipe
        1 2 0 0 _ (by decide) mf hpg0 _ hstep1]
      rw [show (0 : Int) + 1 = 1 from by decide]
      rw [show (2 : Nat) = 1 + 1 from by norm_num]
      rw [runLoop_step_nosurr stepFAJ p.module_list p.surrogate_list p.surrogate_recipe
        1 1 1 0 _ (by decide) mg hpg1 _ hstep2]
      rw [show (1 : Int) + 1 = 2 from by decide]
      exact runLoop_done _ _ _ _ _ _ _ _ _ _ (by decide)
    refine ⟨⟨aset (aset (aset [] "x" x) "y" yv) "z" zv,
             aset (aset (aset [] "x" (eye x.length)) "y" Jf) "z" (matMul Jg Jf)⟩,
            ?_, alookup_aset_self _ _ _⟩
    unfold pipeFAJCore
    rw [if_pos rfl, if_pos rfl]
    simp only [hseed]
    exact hrun

/-- A stage `y = f(x)` with local Jacobian `[[2]]`. -/
def c1mf : Module := ⟨["x"], ["y"], [], [], [], fun _ => none, fun _ => some ([[7]], [[[2]]])⟩

/-- A stage `z = g(y)` with local Jacobian `[[3]]`. -/
def c1mg : Module := ⟨["y"], ["z"], [], [], [], fun _ => none, fun _ => some ([[9]], [[[3]]])⟩

/-- The 2-module pipeline `x ↦ y ↦ z`. -/
def c1p : Pipeline := ⟨[c1mf, c1mg], [], [], ["x"], none, none, .all false⟩

theorem c1_jacobian_chain_rule_witness :
    ∃ dfin, pipeFAJCore c1p idK false true 0 1 [5] = .ok dfin ∧
      alookup dfin.jvals "z" = some (matMul [[3]] [[2]]) :=
  c1_jacobian_chain_rule.2 c1p idK c1mf c1mg [5] [7] [9] [[2]] [[3]]
    rfl rfl rfl rfl rfl rfl rfl rfl rfl (by decide) rfl rfl rfl rfl rfl (by decide)

/-! ### The error-wrapping contract of the evaluation loop -/

/-- Zero or more successful loop iterations from one cursor/bookkeeping
state to another. -/
inductive LoopReach (step : Module → VariableDict → Except VariableDict VariableDict)
    (ml : List Module) (sl : List Surrogate) (recipe : List (Nat × Int × Int))
    (stop : Int) : Int → Nat → Bool → VariableDict → Int → Nat → Bool → VariableDict → Prop
  | refl (i : Int) (si : Nat) (us : Bool) (d : VariableDict) :
      LoopReach step ml sl recipe stop i si us d i si us d
  | next {i : Int} {si : Nat} {us : Bool} {d : VariableDict} {m : Module} {di : Int}
      {si' : Nat} {us' : Bool} {d' : VariableDict} {j : Int} {sj : Nat} {usj : Bool}
      {dj : VariableDict} :
      i ≤ stop →
      selectStage ml sl recipe i si us = some (m, di, si', us') →
      step m d = .ok d' →
      LoopReach step ml sl recipe stop (i + di) si' us' d' j sj usj dj →
      LoopReach step ml sl recipe stop i si us d j sj usj dj

/-- The loop body raises at this state: either the stage selection itself
raises (leaving the dictionary untouched) or the selected stage's step
raises with its partially mutated dictionary. -/
def failsAt (step : Module → VariableDict → Except VariableDict VariableDict)
    (ml : List Module) (sl : List Surrogate) (recipe : List (Nat × Int × Int))
    (i : Int) (si : Nat) (us : Bool) (d derr : VariableDict) : Prop :=
  (selectStage ml sl recipe i si us = none ∧ derr = d) ∨
  (∃ m di si' us', selectStage ml sl recipe i si us = some (m, di, si', us') ∧
    step m d = .error derr)

/-- Zero or more successful non-surrogate steps (`use_surrogate = False`:
the stage is always `module_list[i]` and the cursor advances by one). -/
inductive ModSteps (step : Module → VariableDict → Except VariableDict VariableDict)
    (ml : List Module) (stop : Int) : Int → VariableDict → Int → VariableDict → Prop
  | refl (i : Int) (d : VariableDict) : ModSteps step ml stop i d i d
  | next {i : Int} {d : VariableDict} {m : Module} {d' : VariableDict} {j : Int}
      {dj : VariableDict} :
      i ≤ stop → pyGet ml i = some m → step m d = .ok d' →
      ModSteps step ml stop (i + 1) d' j dj →
      ModSteps step ml stop i d j dj

/-- The non-surrogate loop body raises at this state. -/
def failsAtMod (step : Module → VariableDict → Except VariableDict VariableDict)
    (ml : List Module) (i : Int) (d derr : VariableDict) : Prop :=
  (pyGet ml i = none ∧ derr = d) ∨
  (∃ m, pyGet ml i = some m ∧ step m d = .error derr)

theorem runLoop_error_atStep
    (step : Module → VariableDict → Except VariableDict VariableDict)
    (ml : List Module) (sl : List Surrogate) (recipe : List (Nat × Int × Int))
    (stop : Int) (fuel : Nat) (i : Int) (si : Nat) (us : Bool) (d : VariableDict)
    (j : Int) (derr : VariableDict)
    (h : runLoop step ml sl recipe stop fuel i si us d = .error (.atStep j derr)) :
    ∃ sj usj dj, LoopReach step ml sl recipe stop i si us d j sj usj dj ∧
      j ≤ stop ∧ failsAt step ml sl recipe j sj usj dj derr := by
  induction fuel generalizing i si us d with
  | zero =>
    simp only [runLoop] at h
    by_cases hle : i ≤ stop
    · rw [if_pos hle] at h
      cases h
    · rw [if_neg hle] at h
      cases h
  | succ f ih =>
    simp only [runLoop] at h
    by_cases hle : i ≤ stop
    · rw [if_pos hle] at h
      cases hsel : selectStage ml sl recipe i si us with
      | none =>
        simp only [hsel] at h
        obtain ⟨hji, hdd⟩ : j = i ∧ derr = d := by
          cases h
          exact ⟨rfl, rfl⟩
        refine ⟨si, us, d, ?_, ?_, ?_⟩
        · rw [hji]
          exact .refl i si us d
        · rw [hji]
          exact hle
        · rw [hji, hdd]
          exact Or.inl ⟨hsel, rfl⟩
      | some sel =>
        obtain ⟨m, di, si', us'⟩ := sel
        simp only [hsel] at h
        cases hstep : step m d with
        | error derr' =>
          simp only [hstep] at h
          obtain ⟨hji, hdd⟩ : j = i ∧ derr = derr' := by
            cases h
            exact ⟨rfl, rfl⟩
          refine ⟨si, us, d, ?_, ?_, ?_⟩
          · rw [hji]
            exact .refl i si us d
          · rw [hji]
            exact hle
          · rw [hji, hdd]
            exact Or.inr ⟨m, di, si', us', hsel, hstep⟩
        | ok d' =>
          simp only [hstep] at h
          obtain ⟨sj, usj, dj, hreach, hj, hfail⟩ := ih (i + di) si' us' d' h
          exact ⟨sj, usj, dj, .next hle hsel hstep hreach, hj, hfail⟩
    · rw [if_neg hle] at h
      cases h

theorem runLoop_error_of_failsAtMod
    (step : Module → VariableDict → Except VariableDict VariableDict)
    (ml : List Module) (sl : List Surrogate) (recipe : List (Nat × Int × Int))
    (stop : Int) (si : Nat) (i j : Int) (d dj derr : VariableDict)
    (hreach : ModSteps step ml stop i d j dj) (hj : j ≤ stop)
    (hfail : failsAtMod step ml j dj derr) :
    runLoop step ml sl recipe stop ((stop + 1 - i).toNat + 1) i si false d
      = .error (.atStep j derr) := by
  induction hreach with
  | refl i d =>
    have hfuel : (stop + 1 - i).toNat + 1 = (stop + 1 - i).toNat + 1 := rfl
    simp only [runLoop, if_pos hj]
    rcases hfail with ⟨hnone, rfl⟩ | ⟨m, hm, hstep⟩
    · have hsel : selectStage ml sl recipe i si false = none := by
        simp [selectStage, hnone]
      simp only [hsel]
    · have hsel : selectStage ml sl recipe i si false = some (m, 1, si, false) := by
        simp [selectStage, hm]
      simp only [hsel, hstep]
  | next hle hm hstep _ ih =>
    rename_i i d m d' j' dj' hrest
    have hfuel : (stop + 1 - i).toNat + 1 = ((stop + 1 - (i + 1)).toNat + 1) + 1 := by
      omega
    rw [hfuel]
    rw [runLoop_step_nosurr step ml sl recipe stop _ i si d hle m hm d' hstep]
    exact ih hj hfail

/-- **C3** — During stepwise evaluation, any exception raised inside a step
(gathering the declared inputs — including a missing named variable —
invoking the stage, binding outputs, copying, or deleting) surfaces as the
single wrapped error that reports the failing step index `j`, carrying the
dictionary as mutated up to the failure; the mutations of the successful
prefix (and of the failing step's earlier phases) are not rolled back.
First conjunct (soundness, any surrogate mode): an `atStep` error can only
arise from a successful prefix reaching state `dj` at step `j ≤ stop` whose
body then fails, and the carried dictionary is exactly the failing body's
partial state.  Second conjunct (completeness, module path): every such
failure produces exactly that error.  Third conjunct: a `fun_and_jac` step
whose delete phase fails after binding and copying reports the delete
phase's partial dictionary, not the step's initial one. -/
theorem c3_step_error_wrapping :
    (∀ (step : Module → VariableDict → Except VariableDict VariableDict)
       (ml : List Module) (sl : List Surrogate) (recipe : List (Nat × Int × Int))
       (stop : Int) (fuel : Nat) (i : Int) (si : Nat) (us : Bool) (d : VariableDict)
       (j : Int) (derr : VariableDict),
      runLoop step ml sl recipe stop fuel i si us d = .error (.atStep j derr) →
      ∃ sj usj dj, LoopReach step ml sl recipe stop i si us d j sj usj dj ∧
        j ≤ stop ∧ failsAt step ml sl recipe j sj usj dj derr) ∧
    (∀ (step : Module → VariableDict → Except VariableDict VariableDict)
       (ml : List Module) (sl : List Surrogate) (recipe : List (Nat × Int × Int))
       (stop : Int) (si : Nat) (i j : Int) (d dj derr : VariableDict),
      ModSteps step ml stop i d j dj → j ≤ stop → failsAtMod step ml j dj derr →
      runLoop step ml sl recipe stop ((stop + 1 - i).toNat + 1) i si false d
        = .error (.atStep j derr)) ∧
    (∀ (m : Module) (d : VariableDict) (ins : List Vec) (inJac : Mat)
       (outs : List Vec) (outjacs : List Mat) (d1 d2 derr : VariableDict),
      getInputs m d = some ins → getInputJacs m d = some inJac →
      m.fun_and_jac ins = some (outs, outjacs) →
      bindOutputsFAJ inJac m.output_vars 0 outs outjacs d = .ok d1 →
      copyPhaseFAJ m m.copy_vars 0 d1 = .ok d2 →
      deletePhaseFAJ m.delete_vars d2 = .error derr →
      stepFAJ m d = .error derr) := by
  refine ⟨runLoop_error_atStep, runLoop_error_of_failsAtMod, ?_⟩
  intro m d ins inJac outs outjacs d1 d2 derr hgi hgj hfaj hbind hcopy hdel
  simp only [stepFAJ, hgi, hgj, hfaj, hbind, hcopy, hdel, Except.bind, bind]

/-- A stage reading an unbound variable `w`. -/
def c3m : Module := ⟨["w"], [], [], [], [], fun _ => none, fun _ => none⟩

/-- The empty dictionary. -/
def c3d : VariableDict := ⟨[], []⟩

theorem c3_step_error_wrapping_witness :
    runLoop stepFun [c3m] [] [] 0 (((0 : Int) + 1 - 0).toNat + 1) 0 0 false c3d
      = .error (.atStep 0 c3d) :=
  c3_step_error_wrapping.2.1 stepFun [c3m] [] [] 0 0 0 0 c3d c3d c3d
    (.refl 0 c3d) (by decide) (Or.inr ⟨c3m, rfl, rfl⟩)

/-! ### The surrogate recipe -/

/-- Two scopes do not overlap: one ends no later than the other starts. -/
def scopeDisjoint (a b : Int × Int) : Prop := a.1 + a.2 ≤ b.1 ∨ b.1 + b.2 ≤ a.1

instance (a b : Int × Int) : Decidable (scopeDisjoint a b) := by
  unfold scopeDisjoint
  infer_instance

theorem overlapScan_none_iff (L : List (Nat × Int × Int)) (k : Nat) :
    overlapScan L k = none ↔
      ∀ (j : Nat) (a b : Nat × Int × Int),
        L[j]? = some a → L[j + 1]? = some b → a.2.1 + a.2.2 ≤ b.2.1 := by
  induction L generalizing k with
  | nil =>
    simp only [overlapScan]
    constructor
    · intro _ j a b ha _
      simp at ha
    · intro _
      trivial
  | cons a t ih =>
    cases t with
    | nil =>
      simp only [overlapScan]
      constructor
      · intro _ j x y _ hy
        cases j with
        | zero => simp at hy
        | succ j' => simp at hy
      · intro _
        trivial
    | cons b t2 =>
      simp only [overlapScan]
      by_cases hcond : a.2.1 + a.2.2 > b.2.1
      · rw [if_pos hcond]
        constructor
        · intro h
          cases h
        · intro hall
          have := hall 0 a b (by simp) (by simp)
          omega
      · rw [if_neg hcond]
        rw [ih (k + 1)]
        constructor
        · intro hall j x y hx hy
          cases j with
          | zero =>
            simp only [List.getElem?_cons_zero, Option.some.injEq] at hx
            simp only [List.getElem?_cons_succ, List.getElem?_cons_zero,
              Option.some.injEq] at hy
            subst hx
            subst hy
            omega
          | succ j' =>
            rw [List.getElem?_cons_succ] at hx hy
            exact hall j' x y hx hy
        · intro hall j x y hx hy
          exact hall (j + 1) x y (by simpa using hx) (by simpa using hy)

theorem pairwise_adjacent {α : Type} {R : α → α → Prop} (L : List α)
    (h : List.Pairwise R L) (j : Nat) (a b : α)
    (ha : L[j]? = some a) (hb : L[j + 1]? = some b) : R a b := by
  obtain ⟨hj, ha'⟩ := List.getElem?_eq_some_iff.mp ha
  obtain ⟨hj1, hb'⟩ := List.getElem?_eq_some_iff.mp hb
  have hR := List.pairwise_iff_getElem.mp h j (j + 1) hj hj1 (by omega)
  rw [ha', hb'] at hR
  exact hR

theorem mem_of_getElem?_some {α : Type} {L : List α} {j : Nat} {a : α}
    (h : L[j]? = some a) : a ∈ L := by
  obtain ⟨hj, ha⟩ := List.getElem?_eq_some_iff.mp h
  exact ha ▸ List.getElem_mem hj

theorem buildSurrogateRecipe_ok (sl : List Surrogate) (n : Nat) (hn : 0 < n)
    (hrange : ∀ s ∈ sl, 0 ≤ s.scope.1 ∧ s.scope.1 + s.scope.2 ≤ (n : Int) ∧ 1 ≤ s.scope.2)
    (hdisj : List.Pairwise (fun s t : Surrogate => scopeDisjoint s.scope t.scope) sl) :
    ∃ r, buildSurrogateRecipe sl n = .ok r := by
  by_cases hemp : sl.isEmpty
  · refine ⟨[], ?_⟩
    unfold buildSurrogateRecipe
    rw [if_pos hemp]
  · unfold buildSurrogateRecipe
    rw [if_neg hemp, if_neg (by omega : ¬ n = 0)]
    set tagged := sl.enum.map (fun p => (p.1, p.2.scope.1, p.2.scope.2)) with htag
    set L := List.insertionSort
      (fun a b => surrogateKey n a ≤ surrogateKey n b) tagged with hL
    have hmemprop : ∀ row ∈ L, (0 : Int) ≤ row.2.1 ∧ row.2.1 + row.2.2 ≤ (n : Int)
        ∧ 1 ≤ row.2.2 := by
      intro row hrow
      rw [hL] at hrow
      have hrow2 : row ∈ tagged :=
        (List.perm_insertionSort _ tagged).mem_iff.mp hrow
      rw [htag] at hrow2
      obtain ⟨p, hp, rfl⟩ := List.mem_map.mp hrow2
      have hps : p.2 ∈ sl := by
        have h2 := List.mem_enum_iff_getElem?.mp hp
        exact mem_of_getElem?_some h2
      exact hrange p.2 hps
    haveI instTot : IsTotal (Nat × Int × Int)
        (fun a b => surrogateKey n a ≤ surrogateKey n b) :=
      ⟨fun a b => le_total _ _⟩
    haveI instTrans : IsTrans (Nat × Int × Int)
        (fun a b => surrogateKey n a ≤ surrogateKey n b) :=
      ⟨fun _ _ _ hab hbc => le_trans hab hbc⟩
    have hsorted : List.Pairwise
        (fun a b => surrogateKey n a ≤ surrogateKey n b) L := by
      rw [hL]
      exact List.sorted_insertionSort _ tagged
    have hdisjL : List.Pairwise
        (fun a b : Nat × Int × Int =>
          scopeDisjoint (a.2.1, a.2.2) (b.2.1, b.2.2)) L := by
      have h1 : List.Pairwise
          (fun p q : Nat × Surrogate => scopeDisjoint p.2.scope q.2.scope) sl.enum := by
        have h2 : List.Pairwise (fun s t : Surrogate => scopeDisjoint s.scope t.scope)
            (sl.enum.map Prod.snd) := by
          rw [List.enum_map_snd]
          exact hdisj
        exact (List.pairwise_map (f := Prod.snd)).mp h2
      have h3 : List.Pairwise
          (fun a b : Nat × Int × Int =>
            scopeDisjoint (a.2.1, a.2.2) (b.2.1, b.2.2)) tagged := by
        rw [htag]
        refine h1.map _ (fun p q h => ?_)
        simpa [scopeDisjoint] using h
      rw [hL]
      exact ((List.perm_insertionSort _ tagged).pairwise_iff
        (fun h => Or.symm h)).mpr h3
    have hscan : overlapScan L 0 = none := by
      rw [overlapScan_none_iff]
      intro j a b ha hb
      have hr_ab := pairwise_adjacent L hsorted j a b ha hb
      have hd_ab := pairwise_adjacent L hdisjL j a b ha hb
      have hpa := hmemprop a (mem_of_getElem?_some ha)
      have hpb := hmemprop b (mem_of_getElem?_some hb)
      have hka : surrogateKey n a = a.2.1 :=
        Int.emod_eq_of_lt hpa.1 (by omega)
      have hkb : surrogateKey n b = b.2.1 :=
        Int.emod_eq_of_lt hpb.1 (by omega)
      rw [hka, hkb] at hr_ab
      rcases hd_ab with h | h
      · exact h
      · simp only at h
        omega
    refine ⟨L, ?_⟩
    simp only [hscan]

theorem buildSurrogateRecipe_error (sl : List Surrogate) (n : Nat) (hn : n ≠ 0)
    (hne : ¬ sl.isEmpty)
    (hover : ∃ (j : Nat) (a b : Nat × Int × Int),
      (List.insertionSort (fun a b => surrogateKey n a ≤ surrogateKey n b)
        (sl.enum.map (fun p => (p.1, p.2.scope.1, p.2.scope.2))))[j]? = some a ∧
      (List.insertionSort (fun a b => surrogateKey n a ≤ surrogateKey n b)
        (sl.enum.map (fun p => (p.1, p.2.scope.1, p.2.scope.2))))[j + 1]? = some b ∧
      b.2.1 < a.2.1 + a.2.2) :
    ∃ msg, buildSurrogateRecipe sl n = .error msg := by
  unfold buildSurrogateRecipe
  rw [if_neg hne, if_neg hn]
  cases hscan : overlapScan (List.insertionSort
      (fun a b => surrogateKey n a ≤ surrogateKey n b)
      (sl.enum.map (fun p => (p.1, p.2.scope.1, p.2.scope.2)))) 0 with
  | some i =>
    refine ⟨"the #" ++ toString i ++ " surrogate model overlaps with the next one.", ?_⟩
    simp only [hscan]
  | none =>
    exfalso
    obtain ⟨j, a, b, ha, hb, hov⟩ := hover
    have := (overlapScan_none_iff _ 0).mp hscan j a b ha hb
    omega

/-- **C2** — The `surrogate_list` setter validates eagerly at assignment
time via `_build_surrogate_recipe`: the scopes are sorted by
`start mod module_count` and a `ValueError` is raised exactly when some
adjacent pair of the sorted recipe overlaps (`start_i + extent_i >
start_{i+1}`).  Conjuncts: (1) an empty surrogate list yields the empty (not
absent) recipe; (2) any list of in-range, pairwise non-overlapping scopes is
accepted — the hypotheses are closed under permutation, so acceptance is
independent of the order in which the surrogates are given; (3) whenever an
adjacent pair of the sorted recipe overlaps, assignment raises; (4) the
setter succeeds exactly when the recipe builder does, storing the rebuilt
recipe. -/
theorem c2_surrogate_recipe_validation :
    (∀ n : Nat, buildSurrogateRecipe ([] : List Surrogate) n = .ok []) ∧
    (∀ (sl : List Surrogate) (n : Nat), 0 < n →
      (∀ s ∈ sl, 0 ≤ s.scope.1 ∧ s.scope.1 + s.scope.2 ≤ (n : Int) ∧ 1 ≤ s.scope.2) →
      List.Pairwise (fun s t : Surrogate => scopeDisjoint s.scope t.scope) sl →
      ∃ r, buildSurrogateRecipe sl n = .ok r) ∧
    (∀ (sl : List Surrogate) (n : Nat), n ≠ 0 → ¬ sl.isEmpty →
      (∃ (j : Nat) (a b : Nat × Int × Int),
        (List.insertionSort (fun a b => surrogateKey n a ≤ surrogateKey n b)
          (sl.enum.map (fun p => (p.1, p.2.scope.1, p.2.scope.2))))[j]? = some a ∧
        (List.insertionSort (fun a b => surrogateKey n a ≤ surrogateKey n b)
          (sl.enum.map (fun p => (p.1, p.2.scope.1, p.2.scope.2))))[j + 1]? = some b ∧
        b.2.1 < a.2.1 + a.2.2) →
      ∃ msg, buildSurrogateRecipe sl n = .error msg) ∧
    (∀ (p : Pipeline) (sl : List Surrogate),
      (∀ r, buildSurrogateRecipe sl p.module_list.length = .ok r →
        setSurrogateList p sl
          = .ok { p with surrogate_list := sl, surrogate_recipe := r }) ∧
      (∀ msg, buildSurrogateRecipe sl p.module_list.length = .error msg →
        setSurrogateList p sl = .error msg)) := by
  refine ⟨?_, buildSurrogateRecipe_ok, buildSurrogateRecipe_error, ?_⟩
  · intro n
    rfl
  · intro p sl
    constructor
    · intro r hr
      simp only [setSurrogateList, hr]
    · intro msg hmsg
      simp only [setSurrogateList, hmsg]

/-- A surrogate stage with the given scope. -/
def c2s (st ext : Int) : Surrogate :=
  ⟨⟨[], [], [], [], [], fun _ => none, fun _ => none⟩, (st, ext), none⟩

theorem c2_surrogate_recipe_validation_witness :
    (∃ r, buildSurrogateRecipe [c2s 0 3, c2s 3 1] 5 = .ok r) ∧
    (∃ r, buildSurrogateRecipe [c2s 3 1, c2s 0 3] 5 = .ok r) ∧
    (∃ msg, buildSurrogateRecipe [c2s 0 3, c2s 2 1] 5 = .error msg) :=
  ⟨c2_surrogate_recipe_validation.2.1 [c2s 0 3, c2s 3 1] 5 (by decide)
      (by decide) (by decide),
   c2_surrogate_recipe_validation.2.1 [c2s 3 1, c2s 0 3] 5 (by decide)
      (by decide) (by decide),
   c2_surrogate_recipe_validation.2.2.1 [c2s 0 3, c2s 2 1] 5 (by decide)
      (by decide) ⟨0, (0, 0, 3), (1, 2, 1), by decide, by decide, by decide⟩⟩

/-! ### The batching / recursion contract -/

theorem fajFill_elementwise (p : Pipeline) (K : ConstraintKernels) (us os : Bool)
    (start stop : Int) (name : String) (fs js jc : Nat) (rows : List Vec)
    (out : List (Vec × Mat))
    (h : fajFill p K us os start stop name fs js jc rows = .ok out) :
    out.length = rows.length ∧ ∀ (k : Nat) (r : Vec), rows[k]? = some r →
      ∃ fj, out[k]? = some fj ∧ pipeFAJVar p K us os start stop r name = .ok fj := by
  induction rows generalizing out with
  | nil =>
    simp only [fajFill, Except.ok.injEq] at h
    subst h
    refine ⟨rfl, ?_⟩
    intro k r hk
    simp at hk
  | cons r rs ih =>
    simp only [fajFill] at h
    cases heval : pipeFAJVar p K us os start stop r name with
    | error e => simp only [heval] at h; exact absurd h (by simp)
    | ok fj =>
      simp only [heval] at h
      by_cases hsh : fj.1.length = fs ∧ fj.2.length = js ∧ matWidth fj.2 = jc
      · rw [if_pos hsh] at h
        cases hrest : fajFill p K us os start stop name fs js jc rs with
        | error e => simp only [hrest] at h; exact absurd h (by simp)
        | ok out' =>
          simp only [hrest, Except.ok.injEq] at h
          subst h
          obtain ⟨hlen, helem⟩ := ih out' hrest
          refine ⟨by simp [hlen], ?_⟩
          intro k x hk
          cases k with
          | zero =>
            simp only [List.getElem?_cons_zero, Option.some.injEq] at hk
            subst hk
            exact ⟨fj, by simp, heval⟩
          | succ k' =>
            rw [List.getElem?_cons_succ] at hk
            obtain ⟨fj2, h1, h2⟩ := helem k' x hk
            exact ⟨fj2, by simpa using h1, h2⟩
      · rw [if_neg hsh] at h
        exact absurd h (by simp)

/-- **C4** — Batched inputs are evaluated by recursing once per
leading-batch element with the resolved per-call options
(`use_surrogate`, `original_space`, `start`, `stop`, `extract_vars`) passed
unchanged, and the stacked result equals, element for element, the results
of independent single-input evaluations with the same options.  Conjuncts:
(1) `fun` on a batch is exactly the stacked per-element recursion;
(2) its elementwise reading; (3) batched `fun_and_jac` with a string
extraction; (4) batched `fun_and_jac` with an object result. -/
theorem c4_batch_recursion :
    (∀ (p : Pipeline) (K : ConstraintKernels) (us os : Bool) (start stop : Int)
        (extract : Option String) (l : List NdArr),
      pipeFunNd p K us os start stop extract (.arr l)
        = (pipeFunNdList p K us os start stop extract l).map FunOut.batch) ∧
    (∀ (p : Pipeline) (K : ConstraintKernels) (us os : Bool) (start stop : Int)
        (extract : Option String) (l : List NdArr) (ys : List FunOut),
      pipeFunNdList p K us os start stop extract l = .ok ys →
      ys.length = l.length ∧
      ∀ (k : Nat) (x : NdArr), l[k]? = some x →
        ∃ y, ys[k]? = some y ∧ pipeFunNd p K us os start stop extract x = .ok y) ∧
    (∀ (p : Pipeline) (K : ConstraintKernels) (us os : Bool) (start stop : Int)
        (name : String) (rows : List Vec) (out : List (Vec × Mat)),
      pipeFAJBatch p K us os start stop name rows = .ok out →
      out.length = rows.length ∧
      ∀ (k : Nat) (r : Vec), rows[k]? = some r →
        ∃ fj, out[k]? = some fj ∧ pipeFAJVar p K us os start stop r name = .ok fj) ∧
    (∀ (p : Pipeline) (K : ConstraintKernels) (us os : Bool) (start stop : Int)
        (rows : List Vec) (out : List VariableDict),
      pipeFAJBatchObj p K us os start stop rows = .ok out →
      out.length = rows.length ∧
      ∀ (k : Nat) (r : Vec), rows[k]? = some r →
        ∃ dres, out[k]? = some dres ∧ pipeFAJCore p K us os start stop r = .ok dres) := by
  refine ⟨?_, ?_, ?_, ?_⟩
  · intro p K us os start stop extract l
    simp only [pipeFunNd]
    cases pipeFunNdList p K us os start stop extract l with
    | error e => rfl
    | ok ys => rfl
  · intro p K us os start stop extract l
    induction l with
    | nil =>
      intro ys h
      simp only [pipeFunNdList, Except.ok.injEq] at h
      subst h
      refine ⟨rfl, ?_⟩
      intro k x hk
      simp at hk
    | cons a t ih =>
      intro ys h
      simp only [pipeFunNdList] at h
      cases heval : pipeFunNd p K us os start stop extract a with
      | error e => simp only [heval] at h; exact absurd h (by simp)
      | ok y =>
        simp only [heval] at h
        cases hrest : pipeFunNdList p K us os start stop extract t with
        | error e => simp only [hrest] at h; exact absurd h (by simp)
        | ok ys' =>
          simp only [hrest, Except.ok.injEq] at h
          subst h
          obtain ⟨hlen, helem⟩ := ih ys' hrest
          refine ⟨by simp [hlen], ?_⟩
          intro k x hk
          cases k with
          | zero =>
            simp only [List.getElem?_cons_zero, Option.some.injEq] at hk
            subst hk
            exact ⟨y, by simp, heval⟩
          | succ k' =>
            rw [List.getElem?_cons_succ] at hk
            obtain ⟨y2, h1, h2⟩ := helem k' x hk
            exact ⟨y2, by simpa using h1, h2⟩
  · intro p K us os start stop name rows out h
    cases rows with
    | nil =>
      simp only [pipeFAJBatch] at h
      exact absurd h (by simp)
    | cons r0 rest =>
      simp only [pipeFAJBatch] at h
      cases heval : pipeFAJVar p K us os start stop r0 name with
      | error e => simp only [heval] at h; exact absurd h (by simp)
      | ok fj0 =>
        simp only [heval] at h
        cases hfill : fajFill p K us os start stop name fj0.1.length fj0.2.length
            (matWidth fj0.2) rest with
        | error e => simp only [hfill] at h; exact absurd h (by simp)
        | ok out' =>
          simp only [hfill, Except.ok.injEq] at h
          subst h
          obtain ⟨hlen, helem⟩ := fajFill_elementwise p K us os start stop name _ _ _
            rest out' hfill
          refine ⟨by simp [hlen], ?_⟩
          intro k r hk
          cases k with
          | zero =>
            simp only [List.getElem?_cons_zero, Option.some.injEq] at hk
            subst hk
            exact ⟨fj0, by simp, heval⟩
          | succ k' =>
            rw [List.getElem?_cons_succ] at hk
            obtain ⟨fj2, h1, h2⟩ := helem k' r hk
            exact ⟨fj2, by simpa using h1, h2⟩
  · intro p K us os start stop rows
    induction rows with
    | nil =>
      intro out h
      simp only [pipeFAJBatchObj, Except.ok.injEq] at h
      subst h
      refine ⟨rfl, ?_⟩
      intro k r hk
      simp at hk
    | cons r rs ih =>
      intro out h
      simp only [pipeFAJBatchObj] at h
      cases heval : pipeFAJCore p K us os start stop r with
      | error e => simp only [heval] at h; exact absurd h (by simp)
      | ok dres =>
        simp only [heval] at h
        cases hrest : pipeFAJBatchObj p K us os start stop rs with
        | error e => simp only [hrest] at h; exact absurd h (by simp)
        | ok out' =>
          simp only [hrest, Except.ok.injEq] at h
          subst h
          obtain ⟨hlen, helem⟩ := ih out' hrest
          refine ⟨by simp [hlen], ?_⟩
          intro k x hk
          cases k with
          | zero =>
            simp only [List.getElem?_cons_zero, Option.some.injEq] at hk
            subst hk
            exact ⟨dres, by simp, heval⟩
          | succ k' =>
            rw [List.getElem?_cons_succ] at hk
            obtain ⟨d2, h1, h2⟩ := helem k' x hk
            exact ⟨d2, by simpa using h1, h2⟩

/-- A single stage `x ↦ y` returning constants, with an empty local
Jacobian block (shape `(0, 1)`), so that batch evaluation is exact. -/
def c4m : Module :=
  ⟨["x"], ["y"], [], [], [], fun _ => some [[7]], fun _ => some ([[7]], [[]])⟩

/-- The 1-module pipeline for the batching witness. -/
def c4p : Pipeline := ⟨[c4m], [], [], ["x"], none, none, .all false⟩

theorem c4_batch_recursion_witness :
    ([FunOut.val [7], FunOut.val [7]].length
        = ([NdArr.vec [5], NdArr.vec [6]] : List NdArr).length ∧
      ∀ (k : Nat) (x : NdArr), ([NdArr.vec [5], NdArr.vec [6]] : List NdArr)[k]? = some x →
        ∃ y, [FunOut.val [7], FunOut.val [7]][k]? = some y ∧
          pipeFunNd c4p idK false true 0 0 (some "y") x = .ok y) ∧
    ([([7], ([] : Mat)), ([7], [])].length = [[(5 : ℚ)], [6]].length ∧
      ∀ (k : Nat) (r : Vec), [[(5 : ℚ)], [6]][k]? = some r →
        ∃ fj, [([7], ([] : Mat)), ([7], [])][k]? = some fj ∧
          pipeFAJVar c4p idK false true 0 0 r "y" = .ok fj) :=
  ⟨c4_batch_recursion.2.1 c4p idK false true 0 0 (some "y")
      [NdArr.vec [5], NdArr.vec [6]] [FunOut.val [7], FunOut.val [7]] rfl,
   c4_batch_recursion.2.2.1 c4p idK false true 0 0 "y"
      [[5], [6]] [([7], []), ([7], [])] rfl⟩

/-! ### The decay penalty -/

theorem dot_comm (u v : Vec) : dot u v = dot v u := by
  unfold dot
  congr 1
  induction u generalizing v with
  | nil => cases v <;> rfl
  | cons a t ih =>
    cases v with
    | nil => rfl
    | cons b tb =>
      simp only [List.zipWith_cons_cons, List.cons.injEq]
      exact ⟨mul_comm a b, ih tb⟩

theorem map_getD_range_f {α β : Type} (l : List α) (d : α) (f : α → β) :
    (List.range l.length).map (fun j => f (l.getD j d)) = l.map f := by
  induction l with
  | nil => simp
  | cons a t ih =>
    rw [List.length_cons, List.range_succ_eq_map, List.map_cons, List.map_map]
    have htail : List.map ((fun j => f ((a :: t).getD j d)) ∘ Nat.succ) (List.range t.length)
        = List.map f t := by
      have hc : List.map ((fun j => f ((a :: t).getD j d)) ∘ Nat.succ) (List.range t.length)
          = List.map (fun j => f (t.getD j d)) (List.range t.length) := by
        apply List.map_congr_left
        intro x _
        simp [Function.comp]
      rw [hc, ih]
    rw [htail]
    simp

/-- **C7** — With `use_decay` enabled and `use_surrogate = True` (the
surrogate evaluation path), in original space: (1) `Density.logp` returns
the raw pipeline log-density minus `gamma * max(0, beta2 - alpha2)` where
`beta2` is the squared Mahalanobis distance of the coordinate from `mu`
under `hess`; (2) the penalty is zero exactly when `beta2 ≤ alpha2`
(Mahalanobis distance at most `alpha`); (3) beyond it the penalty is
strictly positive and strictly increasing in `beta2`; (4) `Density.grad`
subtracts `2 * gamma * (x - mu)·hess` gated by `beta2 > alpha2`; (5) when
`hess` is symmetric (each column equals the matching row, as the inverse
covariance is), `(x - mu)·hess` is exactly the claim's `hess·(x - mu)`;
(6) the `logp` part of `Density.logp_and_grad` subtracts the same penalty. -/
theorem c7_decay_penalty :
    (∀ (D : Density) (K : ConstraintKernels) (logq : ℚ → ℚ) (x : Vec)
        (mu : Vec) (H : Mat) (a g : ℚ) (lv : Vec) (l0 : ℚ),
      D.use_decay = true → D.mu = some mu → D.hess = some H →
      D.alpha = some a → D.gamma = some g →
      pipeFunVar D.toPipeline K true true 0 (defaultStop D.toPipeline) x D.density_name
        = .ok lv →
      lv.head? = some l0 →
      logp D K logq x true true
        = .ok (l0 - decayPenalty g (a ^ 2) (qform H (subV x mu)))) ∧
    (∀ g a2 b2 : ℚ, 0 < g → (decayPenalty g a2 b2 = 0 ↔ b2 ≤ a2)) ∧
    (∀ g a2 b1 b2 : ℚ, 0 < g → a2 < b1 →
      0 < decayPenalty g a2 b1 ∧ (b1 < b2 → decayPenalty g a2 b1 < decayPenalty g a2 b2)) ∧
    (∀ (D : Density) (K : ConstraintKernels) (x : Vec)
        (mu : Vec) (H : Mat) (a g : ℚ) (fj : Vec × Mat) (g0 : Vec),
      D.use_decay = true → D.mu = some mu → D.hess = some H →
      D.alpha = some a → D.gamma = some g →
      pipeFAJVar D.toPipeline K true true 0 (defaultStop D.toPipeline) x D.density_name
        = .ok fj →
      fj.2.head? = some g0 →
      grad D K x true true
        = .ok (subV g0 ((vecMat (subV x mu) H).map
            (fun t => 2 * g * t *
              (if a ^ 2 < qform H (subV x mu) then 1 else 0))))) ∧
    (∀ (H : Mat) (v : Vec), matWidth H = H.length →
      (∀ j, j < H.length → colJ H j = H.getD j []) →
      vecMat v H = H.map (fun r => dot r v)) ∧
    (∀ (D : Density) (K : ConstraintKernels) (logq : ℚ → ℚ) (x : Vec)
        (mu : Vec) (H : Mat) (a g : ℚ) (fj : Vec × Mat) (l0 : ℚ) (g0 : Vec),
      D.use_decay = true → D.mu = some mu → D.hess = some H →
      D.alpha = some a → D.gamma = some g →
      pipeFAJVar D.toPipeline K true true 0 (defaultStop D.toPipeline) x D.density_name
        = .ok fj →
      fj.1.head? = some l0 → fj.2.head? = some g0 →
      logp_and_grad D K logq x true true
        = .ok (l0 - decayPenalty g (a ^ 2) (qform H (subV x mu)),
               subV g0 ((vecMat (subV x mu) H).map
                 (fun t => 2 * g * t *
                   (if a ^ 2 < qform H (subV x mu) then 1 else 0))))) := by
  refine ⟨?_, ?_, ?_, ?_, ?_, ?_⟩
  · intro D K logq x mu H a g lv l0 hud hmu hh ha hg heval hhead
    simp only [logp, heval, hhead, hud, hmu, hh, ha, hg, Bool.and_self, if_pos rfl]
    simp
  · intro g a2 b2 hg
    unfold decayPenalty
    constructor
    · intro h
      by_contra hb
      push_neg at hb
      have h1 : max 0 (b2 - a2) = b2 - a2 := max_eq_right (by linarith)
      rw [h1] at h
      have := mul_eq_zero.mp h
      rcases this with h2 | h2
      · linarith
      · linarith
    · intro h
      have h1 : max 0 (b2 - a2) = 0 := max_eq_left (by linarith)
      rw [h1, mul_zero]
  · intro g a2 b1 b2 hg hb1
    unfold decayPenalty
    have h1 : max 0 (b1 - a2) = b1 - a2 := max_eq_right (by linarith)
    constructor
    · rw [h1]
      exact mul_pos hg (by linarith)
    · intro hlt
      have h2 : max 0 (b2 - a2) = b2 - a2 := max_eq_right (by linarith)
      rw [h1, h2]
      exact mul_lt_mul_of_pos_left (by linarith) hg
  · intro D K x mu H a g fj g0 hud hmu hh ha hg heval hhead
    simp only [grad, heval, hhead, hud, hmu, hh, ha, hg, Bool.and_self, if_pos rfl]
    simp
  · intro H v hw hsym
    unfold vecMat
    rw [hw]
    have hstep : (List.range H.length).map (fun j => dot v (colJ H j))
        = (List.range H.length).map (fun j => dot (H.getD j []) v) := by
      apply List.map_congr_left
      intro j hj
      rw [List.mem_range] at hj
      rw [hsym j hj, dot_comm]
    rw [hstep]
    exact map_getD_range_f H [] (fun r => dot r v)
  · intro D K logq x mu H a g fj l0 g0 hud hmu hh ha hg heval hh1 hh2
    simp only [logp_and_grad, heval, hh1, hh2, hud, hmu, hh, ha, hg, Bool.and_self,
      if_pos rfl]
    simp

/-- A 1-module density whose value stage returns `[7]` with an empty local
Jacobian block, with decay configured. -/
def c7D : Density := ⟨c4p, "y", true, some [0], some [[0]], some 1, some 1⟩

theorem c7_decay_penalty_witness :
    logp c7D idK (fun _ => 0) [5] true true
      = .ok (7 - decayPenalty 1 (1 ^ 2) (qform [[0]] (subV [5] [0]))) ∧
    ((decayPenalty 1 0 0 = 0) ↔ ((0 : ℚ) ≤ 0)) ∧
    vecMat [3] [[0]] = [[0]].map (fun r => dot r [3]) :=
  ⟨c7_decay_penalty.1 c7D idK (fun _ => 0) [5] [0] [[0]] 1 1 [7] 7
      rfl rfl rfl rfl rfl rfl rfl,
   c7_decay_penalty.2.1 1 0 0 (by decide),
   c7_decay_penalty.2.2.2.2.1 [[0]] [3] (by decide)
      (by
        intro j hj
        have hj0 : j = 0 := Nat.lt_one_iff.mp (by simpa using hj)
        subst hj0
        decide)⟩

/-- C10: `Density.set_decay` (lines 695-729) ends every successful call by
setting `use_decay = True`, with `mu` recomputed as the sample mean of the
original-space batch, `hess` as the inverse covariance actually returned by
`np.linalg.inv`, and `alpha`/`gamma` resolved to concrete values; and
`Density.fit` called with `use_decay=False` (lines 752-756) returns the
density with `use_decay` cleared and nothing else changed. -/
theorem c10_decay_flags :
    (∀ (D : Density) (K : ConstraintKernels) (NK : NumKernels) (x : List Vec)
        (os : Bool) (a ap g : Option ℚ) (D' : Density),
      set_decay D K NK x os a ap g = .ok D' →
        D'.use_decay = true ∧
        D'.mu = some (meanVec (if os then x else x.map (to_original D.toPipeline K))) ∧
        (∃ hs, NK.inv (NK.cov (if os then x
            else x.map (to_original D.toPipeline K))) = some hs ∧ D'.hess = some hs) ∧
        (∃ aq, D'.alpha = some aq) ∧ (∃ gq, D'.gamma = some gq)) ∧
    (∀ (D : Density) (K : ConstraintKernels) (NK : NumKernels)
        (vds : List VariableDict) (sfit : Nat → Bool) (D' : Density),
      fit D K NK vds false sfit = .ok D' →
        D'.use_decay = false ∧ D' = { D with use_decay := false }) := by
  constructor
  · intro D K NK x os a ap g D' h
    simp only [set_decay] at h
    split at h
    · exact absurd h (by simp)
    next hess hinv =>
      split at h
      · exact absurd h (by simp)
      next aF haF =>
        split at h
        · exact absurd h (by simp)
        next gF hgF =>
          injection h with h
          subst h
          exact ⟨rfl, rfl, ⟨hess, hinv, rfl⟩, ⟨aF, rfl⟩, ⟨gF, rfl⟩⟩
  · intro D K NK vds sfit D' h
    simp only [fit, Bool.false_eq_true, if_false] at h
    split at h
    · exact absurd h (by simp)
    · injection h with h
      subst h
      exact ⟨rfl, rfl⟩

/-- Trivial external numerics for the witness: empty covariance whose inverse
exists. -/
def nk0 : NumKernels := ⟨fun _ => [], fun _ => some [], id, fun _ _ => 0⟩

/-- The density `set_decay` produces from `c7D` on an empty batch with
explicit `alpha = gamma = 1`. -/
def c10D : Density :=
  { c7D with mu := some [], hess := some [], alpha := some 1,
             gamma := some 1, use_decay := true }

theorem c10_decay_flags_witness :
    c10D.use_decay = true ∧
    ({ c7D with use_decay := false } : Density).use_decay = false :=
  ⟨(c10_decay_flags.1 c7D idK nk0 [] true (some 1) none (some 1) c10D rfl).1,
   (c10_decay_flags.2 c7D idK nk0 [] (fun _ => true)
      { c7D with use_decay := false } rfl).1⟩

end BayesFast
